import Mathlib

/-!
# Snapclient configuration UI: the parameter client (`html/index.js`)

A shallow embedding of `components/ui_http_server/html/index.js` and of the
ECMAScript / Fetch built-ins it calls, followed by the properties of the
parameter client stated in the specification.

* JavaScript strings are sequences of UTF-16 code units (`JSString`).
* JavaScript numbers are IEEE binary64 values (`JSNumber`), with decimal
  conversions done in exact integer arithmetic.
* `fetch` is a function from the request to what the transport answers; every
  operation returns its completion (value or thrown fault) together with the
  requests it issued and the lines it wrote to the console.
-/

namespace Snapclient

/-! ## JavaScript strings -/

/-- A UTF-16 code unit. -/
abbrev CodeUnit := Fin 65536

/-- A JavaScript string value: a finite sequence of UTF-16 code units. -/
abbrev JSString := List CodeUnit

/-- UTF16EncodeCodePoint of ECMA-262: one code unit for the basic plane, a
surrogate pair above it. -/
def utf16EncodeCodePoint (cp : Nat) : JSString :=
  if cp < 0x10000 then [Fin.ofNat cp]
  else [Fin.ofNat (0xD800 + (cp - 0x10000) / 0x400),
        Fin.ofNat (0xDC00 + (cp - 0x10000) % 0x400)]

/-- The JavaScript string denoted by a source literal. -/
def js (s : String) : JSString :=
  s.data.flatMap (fun c => utf16EncodeCodePoint c.val.toNat)

/-- WhiteSpace and LineTerminator code points of ECMA-262 (the set removed by
`String.prototype.trim` and skipped by `parseFloat`): TAB, LF, VT, FF, CR, SP,
NBSP, the Unicode space separators, LS, PS and ZWNBSP. -/
def isWhiteSpace (c : CodeUnit) : Bool :=
  decide (c.val ∈ [0x09, 0x0A, 0x0B, 0x0C, 0x0D, 0x20, 0xA0, 0x1680,
    0x2000, 0x2001, 0x2002, 0x2003, 0x2004, 0x2005, 0x2006, 0x2007, 0x2008,
    0x2009, 0x200A, 0x2028, 0x2029, 0x202F, 0x205F, 0x3000, 0xFEFF])

/-- TrimString(s, start). -/
def trimStart (s : JSString) : JSString := s.dropWhile isWhiteSpace

/-- TrimString(s, end). -/
def trimEnd (s : JSString) : JSString := (s.reverse.dropWhile isWhiteSpace).reverse

/-- The built-in `String.prototype.trim`: TrimString(s, start+end). -/
def trim (s : JSString) : JSString := trimEnd (trimStart s)

/-- The code unit of the decimal digit `d` (`d < 10`). -/
def digitUnit (d : Nat) : CodeUnit := Fin.ofNat (0x30 + d % 10)

/-- Decimal digits of `n`, most significant first, in front of `acc`; `fuel`
bounds the number of digits. -/
def decimalAux : Nat → Nat → JSString → JSString
  | 0, _, acc => acc
  | fuel + 1, n, acc =>
    if n < 10 then digitUnit n :: acc
    else decimalAux fuel (n / 10) (digitUnit (n % 10) :: acc)

/-- The decimal representation of a natural number, without leading zeros
(what ToString gives for a non-negative integral Number below 10^21). -/
def natToDecimal (n : Nat) : JSString := decimalAux (n + 1) n []

/-- Whether a code unit is an ASCII decimal digit. -/
def isDigit (c : CodeUnit) : Bool := decide (0x30 ≤ c.val ∧ c.val ≤ 0x39)

/-- The value of a run of decimal digits (most significant first). -/
def digitsValue (ds : JSString) : Nat :=
  ds.foldl (fun acc c => 10 * acc + (c.val - 0x30)) 0

/-! ## JavaScript numbers (IEEE 754 binary64) -/

/-- A Number value. A finite value is given by its sign, its biased exponent
field (0 for zeros and subnormals, at most 2046) and its 52-bit fraction
field, so every inhabitant is a distinct binary64 value (NaN is a single
value, as in ECMAScript). -/
inductive JSNumber
  | nan
  | inf (neg : Bool)
  | fin (neg : Bool) (expo : Fin 2047) (frac : Fin 4503599627370496)
  deriving DecidableEq, Repr

/-- The significand `m` of a finite value `m * 2^e`. -/
def significand (expo : Fin 2047) (frac : Fin 4503599627370496) : Nat :=
  if expo.val = 0 then frac.val else 4503599627370496 + frac.val

/-- The exponent `e` of a finite value `m * 2^e` (at least -1074). -/
def binaryExponent (expo : Fin 2047) : Int :=
  if expo.val = 0 then -1074 else (expo.val : Int) - 1075

/-- The magnitude of a finite value as an exact fraction `(num, den)`. -/
def magnitude (expo : Fin 2047) (frac : Fin 4503599627370496) : Nat × Nat :=
  let m := significand expo frac
  let e := binaryExponent expo
  if 0 ≤ e then (m * 2 ^ e.toNat, 1) else (m, 2 ^ (-e).toNat)

/-- Floor of the binary logarithm (0 at 0), by halving. -/
def log2Aux : Nat → Nat → Nat
  | 0, _ => 0
  | fuel + 1, n => if n < 2 then 0 else log2Aux fuel (n / 2) + 1

/-- Floor of the binary logarithm of a positive natural number. -/
def floorLog2 (n : Nat) : Nat := log2Aux n n

/-- The Number value for the exact non-negative quantity `num / den`
(`den > 0`) with the given sign: round to nearest, ties to even, overflowing to
an infinity (the rounding of ECMA-262 for a mathematical value). -/
def roundBinary64 (neg : Bool) (num den : Nat) : JSNumber :=
  if num = 0 then .fin neg 0 0 else
  let d : Int := (floorLog2 num : Int) - (floorLog2 den : Int)
  let ge : Bool := if 0 ≤ d then decide (den * 2 ^ d.toNat ≤ num)
                   else decide (den ≤ num * 2 ^ (-d).toNat)
  -- `l` is the floor of the binary logarithm of `num / den`
  let l : Int := if ge then d else d - 1
  let e : Int := max (l - 52) (-1074)
  let sn : Nat := if 0 ≤ e then num else num * 2 ^ (-e).toNat
  let sd : Nat := if 0 ≤ e then den * 2 ^ e.toNat else den
  let q := sn / sd
  let r := sn % sd
  let m := if sd < 2 * r ∨ (2 * r = sd ∧ q % 2 = 1) then q + 1 else q
  let m1 := if m = 9007199254740992 then 4503599627370496 else m
  let e1 := if m = 9007199254740992 then e + 1 else e
  if 971 < e1 then .inf neg
  else if m1 < 4503599627370496 then .fin neg 0 (Fin.ofNat m1)
  else .fin neg (Fin.ofNat (e1 + 1075).toNat) (Fin.ofNat (m1 - 4503599627370496))

/-- The Number value nearest to `s * 10^p`. -/
def roundDecimal (neg : Bool) (s : Nat) (p : Int) : JSNumber :=
  if 0 ≤ p then roundBinary64 neg (s * 10 ^ p.toNat) 1
  else roundBinary64 neg s (10 ^ (-p).toNat)

/-- The Number value of a natural number. -/
def JSNumber.ofNat (n : Nat) : JSNumber := roundBinary64 false n 1

/-- Whether the number is finite and exactly the integer `z`. -/
def JSNumber.isInt (x : JSNumber) (z : Int) : Bool :=
  match x with
  | .fin neg expo frac =>
    let nd := magnitude expo frac
    decide (nd.1 = z.natAbs * nd.2) && (decide (z.natAbs = 0) || decide (neg = decide (z < 0)))
  | _ => false

/-- A leading sign: whether it is `-`, and what follows it. -/
def stripSign (s : JSString) : Bool × JSString :=
  match s with
  | c :: rest =>
    if c.val = 0x2D then (true, rest)
    else if c.val = 0x2B then (false, rest)
    else (false, s)
  | [] => (false, [])

/-- The value of an ExponentPart at the head of `s` (`e` or `E`, an optional
sign, at least one digit), or 0 when `s` does not start with one. -/
def parseExponent (s : JSString) : Int :=
  match s with
  | c :: rest =>
    if c.val = 0x65 ∨ c.val = 0x45 then
      let sr := stripSign rest
      let ds := sr.2.takeWhile isDigit
      if ds = [] then 0
      else if sr.1 then -(digitsValue ds : Int) else (digitsValue ds : Int)
    else 0
  | [] => 0

/-- The built-in `parseFloat` applied to a string: skip leading white space,
take the longest leading StrDecimalLiteral (optional sign, then `Infinity` or
decimal digits with an optional fraction and exponent), and return its value
rounded to a Number; NaN when there is no such literal. -/
def parseFloat (input : JSString) : JSNumber :=
  let sr := stripSign (trimStart input)
  let neg := sr.1
  let s := sr.2
  if s.take 8 = js "Infinity" then .inf neg else
  let intDigits := s.takeWhile isDigit
  let rest := s.dropWhile isDigit
  let hasDot : Bool := decide ((rest.head?.map Fin.val) = some 0x2E)
  let fracDigits := if hasDot then rest.tail.takeWhile isDigit else []
  let rest2 := if hasDot then rest.tail.dropWhile isDigit else rest
  if intDigits = [] ∧ fracDigits = [] then .nan else
  roundDecimal neg (digitsValue (intDigits ++ fracDigits))
    (parseExponent rest2 - (fracDigits.length : Int))

/-- Whether `num / den < 10^n`. -/
def ltPow10 (num den : Nat) (n : Int) : Bool :=
  if 0 ≤ n then decide (num < den * 10 ^ n.toNat)
  else decide (num * 10 ^ (-n).toNat < den)

/-- Search upwards from `n` for the least exponent with `num / den < 10^n`. -/
def decimalExponentAux : Nat → Int → Nat → Nat → Int
  | 0, n, _, _ => n
  | fuel + 1, n, num, den =>
    if ltPow10 num den n then n else decimalExponentAux fuel (n + 1) num den

/-- Floor of the binary logarithm of the magnitude of a non-zero finite
Number. -/
def binaryLog (expo : Fin 2047) (frac : Fin 4503599627370496) : Int :=
  if expo.val = 0 then (floorLog2 frac.val : Int) - 1074 else (expo.val : Int) - 1023

/-- A lower estimate of the decimal exponent from the binary logarithm `l`
(`30103 / 100000` approximates the decimal logarithm of 2 from above with an
error below 10^-8, so for `|l| ≤ 1074` the estimate is at most 3 below the
exact exponent and never above it). -/
def decimalEstimate (l : Int) : Int :=
  if 0 ≤ l then ((l.toNat * 30103 / 100000 : Nat) : Int) - 1
  else -(((-l).toNat * 30103 / 100000 : Nat) : Int) - 2

/-- The integer `n` with `10^(n-1) ≤ x < 10^n` for the non-zero finite
magnitude `x` with the given fields. -/
def decimalExponent (expo : Fin 2047) (frac : Fin 4503599627370496) : Int :=
  let nd := magnitude expo frac
  decimalExponentAux 8 (decimalEstimate (binaryLog expo frac)) nd.1 nd.2

/-- The pairs `(s, n)` with `k` digits in `s` (`10^(k-1) ≤ s < 10^k`), the
given `n`, and `s * 10^(n-k)` rounding to `x`, among the two integers `s`
around `(num / den) * 10^(k-n)`. -/
def candidatesAt (x : JSNumber) (num den k : Nat) (n : Int) : List (Nat × Int) :=
  let p : Int := (k : Int) - n
  let sn := if 0 ≤ p then num * 10 ^ p.toNat else num
  let sd := if 0 ≤ p then den else den * 10 ^ (-p).toNat
  let lo := sn / sd
  [lo, lo + 1].filterMap fun s =>
    if 10 ^ (k - 1) ≤ s ∧ s < 10 ^ k ∧ roundDecimal false s (n - (k : Int)) = x
    then some (s, n) else none

/-- The distance between `s * 10^(n-k)` and `num / den`, as an exact
fraction. -/
def distance (num den k : Nat) (c : Nat × Int) : Nat × Nat :=
  let p : Int := c.2 - (k : Int)
  let vn := if 0 ≤ p then c.1 * 10 ^ p.toNat else c.1
  let vd := if 0 ≤ p then 1 else 10 ^ (-p).toNat
  (if vn * den ≤ num * vd then num * vd - vn * den else vn * den - num * vd, vd * den)

/-- The candidate closest to `num / den`; of two equally close ones, the one
with even `s`. -/
def pickClosest (num den k : Nat) : List (Nat × Int) → Option (Nat × Int)
  | [] => none
  | c :: cs =>
    match pickClosest num den k cs with
    | none => some c
    | some b =>
      let dc := distance num den k c
      let db := distance num den k b
      if dc.1 * db.2 < db.1 * dc.2 ∨ (dc.1 * db.2 = db.1 * dc.2 ∧ c.1 % 2 = 0)
      then some c else some b

/-- Search for the least digit count `k` (from the given one) for which some
`s * 10^(n-k)` rounds to `x`. Seventeen significant digits always identify a
binary64 value, so the search from 1 ends within 17 steps; the last case only
makes the function total. -/
def shortestDigitsAux (x : JSNumber) (num den : Nat) (n0 : Int) :
    Nat → Nat → Nat × Int
  | 0, k => ((num * 10 ^ ((k : Int) - n0).toNat) / den, n0)
  | fuel + 1, k =>
    match pickClosest num den k
        ([n0 - 1, n0, n0 + 1].flatMap (candidatesAt x num den k)) with
    | some c => c
    | none => shortestDigitsAux x num den n0 fuel (k + 1)

/-- Number::toString, step 5: integers `n` and `s` such that `s` has as few
digits `k` as possible with `s * 10^(n-k)` rounding to the positive finite
value with the given fields, `s * 10^(n-k)` being as close to it as possible. -/
def shortestDigits (expo : Fin 2047) (frac : Fin 4503599627370496) : Nat × Int :=
  let nd := magnitude expo frac
  shortestDigitsAux (.fin false expo frac) nd.1 nd.2 (decimalExponent expo frac) 17 1

/-- Number::toString, steps 6 to 10: lay out the digits `ds` of `s` with the
decimal point given by `n`, in plain form for `-5 ≤ n ≤ 21` and in exponent
form otherwise. -/
def layoutDecimal (ds : JSString) (n : Int) : JSString :=
  let k : Int := ds.length
  if -5 ≤ n ∧ n ≤ 21 then
    if k ≤ n then ds ++ List.replicate (n - k).toNat (digitUnit 0)
    else if 0 < n then ds.take n.toNat ++ js "." ++ ds.drop n.toNat
    else js "0." ++ List.replicate (-n).toNat (digitUnit 0) ++ ds
  else
    let sign := if n - 1 < 0 then js "-" else js "+"
    let e := natToDecimal (n - 1).natAbs
    if ds.length = 1 then ds ++ js "e" ++ sign ++ e
    else ds.take 1 ++ js "." ++ ds.drop 1 ++ js "e" ++ sign ++ e

/-- Number::toString(x, 10): the string form of a Number. -/
def numberToString (x : JSNumber) : JSString :=
  match x with
  | .nan => js "NaN"
  | .inf neg => if neg then js "-Infinity" else js "Infinity"
  | .fin neg expo frac =>
    if expo.val = 0 ∧ frac.val = 0 then js "0"
    else
      let sn := shortestDigits expo frac
      (if neg then js "-" else []) ++ layoutDecimal (natToDecimal sn.1) sn.2

/-! ## JavaScript values and JSON -/

/-- A thrown JavaScript error object: its `name` and its `message`. -/
structure JSError where
  name : JSString
  message : JSString
  deriving DecidableEq

/-- The expression `new Error(message)`. -/
def newError (message : JSString) : JSError := ⟨js "Error", message⟩

/-- The JavaScript values that occur as arguments and results of the client.
Primitives, arrays and plain objects (their own properties in property order)
are given as trees. Any other value (a function, a symbol, a BigInt, an object
with a `toJSON` method, an object that contains itself, a host object) is
given by the two things the client observes of it: its ToBoolean and the
outcome of serialising it with `JSON.stringify`, which is a thrown fault, the
result `undefined` (`none`) or a text. -/
inductive JSValue
  | undefined
  | null
  | bool (b : Bool)
  | num (x : JSNumber)
  | str (s : JSString)
  | arr (items : List JSValue)
  | obj (fields : List (JSString × JSValue))
  | other (truthy : Bool) (json : Except JSError (Option JSString))

/-- The TypeError thrown by `JSON.stringify` (the message is implementation
defined). -/
def typeError (message : JSString) : JSError := ⟨js "TypeError", message⟩

/-- A function value: truthy, serialised as `undefined`. -/
def JSValue.function : JSValue := .other true (.ok none)

/-- An object that contains itself: truthy, `JSON.stringify` throws a
TypeError at it. -/
def JSValue.cyclic : JSValue :=
  .other true (.error (typeError (js "Converting circular structure to JSON")))

/-- ToBoolean of ECMA-262: `undefined`, `null`, `false`, `+0`, `-0`, `NaN` and
the empty string are falsy, every other primitive of the tree and every array
and plain object is truthy. -/
def toBoolean : JSValue → Bool
  | .undefined => false
  | .null => false
  | .bool b => b
  | .num .nan => false
  | .num (.inf _) => true
  | .num (.fin _ expo frac) => !(decide (expo.val = 0) && decide (frac.val = 0))
  | .str s => !s.isEmpty
  | .arr _ => true
  | .obj _ => true
  | .other truthy _ => truthy

/-- The code unit of the lower-case hexadecimal digit `d` (`d < 16`). -/
def hexLower (d : Nat) : CodeUnit :=
  if d % 16 < 10 then Fin.ofNat (0x30 + d % 16) else Fin.ofNat (0x61 + (d % 16 - 10))

/-- The six code units of the JSON escape of a code unit, with four lower-case
hexadecimal digits. -/
def unicodeEscape (c : CodeUnit) : JSString :=
  js "\\u" ++ [hexLower (c.val / 4096), hexLower (c.val / 256), hexLower (c.val / 16),
    hexLower c.val]

/-- Leading (high) surrogate code units. -/
def isLeadSurrogate (c : CodeUnit) : Bool := decide (0xD800 ≤ c.val ∧ c.val ≤ 0xDBFF)

/-- Trailing (low) surrogate code units. -/
def isTrailSurrogate (c : CodeUnit) : Bool := decide (0xDC00 ≤ c.val ∧ c.val ≤ 0xDFFF)

/-- The JSON escape of one code point below U+10000 that is not part of a
surrogate pair: short escapes for backspace, tab, line feed, form feed,
carriage return, the double quote and the backslash; a unicode escape for other
control characters and for an unpaired surrogate; any other code unit
unchanged. -/
def quoteJSONUnit (c : CodeUnit) : JSString :=
  if isLeadSurrogate c ∨ isTrailSurrogate c then unicodeEscape c
  else if c.val = 0x08 then js "\\b"
  else if c.val = 0x09 then js "\\t"
  else if c.val = 0x0A then js "\\n"
  else if c.val = 0x0C then js "\\f"
  else if c.val = 0x0D then js "\\r"
  else if c.val = 0x22 then js "\\\""
  else if c.val = 0x5C then js "\\\\"
  else if c.val < 0x20 then unicodeEscape c
  else [c]

/-- The body of QuoteJSONString: the string read code point by code point, a
surrogate pair copied, every other code point escaped by `quoteJSONUnit`. -/
def quoteJSONBody : JSString → JSString
  | [] => []
  | [c] => quoteJSONUnit c
  | c :: d :: rest =>
    if isLeadSurrogate c ∧ isTrailSurrogate d then c :: d :: quoteJSONBody rest
    else quoteJSONUnit c ++ quoteJSONBody (d :: rest)

/-- QuoteJSONString of ECMA-262. -/
def quoteJSONString (s : JSString) : JSString := js "\"" ++ quoteJSONBody s ++ js "\""

/-- Concatenation of strings with a separator between neighbours. -/
def joinWith (sep : JSString) : List JSString → JSString
  | [] => []
  | [x] => x
  | x :: y :: rest => x ++ sep ++ joinWith sep (y :: rest)

mutual
/-- The built-in `JSON.stringify(value)` (SerializeJSONProperty without
replacer or indentation): a thrown fault, or the result, where `none` stands
for `undefined`. -/
def jsonStringify : JSValue → Except JSError (Option JSString)
  | .undefined => .ok none
  | .null => .ok (some (js "null"))
  | .bool b => .ok (some (if b then js "true" else js "false"))
  | .num x =>
    match x with
    | .fin _ _ _ => .ok (some (numberToString x))
    | _ => .ok (some (js "null"))
  | .str s => .ok (some (quoteJSONString s))
  | .arr items =>
    match jsonItems items with
    | .ok parts => .ok (some (js "[" ++ joinWith (js ",") parts ++ js "]"))
    | .error e => .error e
  | .obj fields =>
    match jsonFields fields with
    | .ok parts => .ok (some (js "\x7b" ++ joinWith (js ",") parts ++ js "\x7d"))
    | .error e => .error e
  | .other _ json => json
/-- SerializeJSONArray: every element serialised in order, `undefined` as
`null`; the first fault is thrown. -/
def jsonItems : List JSValue → Except JSError (List JSString)
  | [] => .ok []
  | v :: rest =>
    match jsonStringify v with
    | .error e => .error e
    | .ok t =>
      match jsonItems rest with
      | .ok parts => .ok (t.getD (js "null") :: parts)
      | .error e => .error e
/-- SerializeJSONObject: every property whose value serialises, in order, as
the quoted key, a colon and the value; the first fault is thrown. -/
def jsonFields : List (JSString × JSValue) → Except JSError (List JSString)
  | [] => .ok []
  | (k, v) :: rest =>
    match jsonStringify v with
    | .error e => .error e
    | .ok t =>
      match jsonFields rest with
      | .ok parts =>
        .ok (match t with
          | some text => (quoteJSONString k ++ js ":" ++ text) :: parts
          | none => parts)
      | .error e => .error e
end

/-! ## The transport: `fetch`, requests and responses -/

/-- The request methods the client uses. -/
inductive Method
  | GET
  | POST
  | DELETE
  deriving DecidableEq

/-- One call of `fetch`: the URL string passed to it and the method, headers
and body of its options (GET, no header and no body when omitted). -/
structure Request where
  method : Method
  url : JSString
  headers : List (JSString × JSString)
  body : Option JSString
  deriving DecidableEq

/-- A Fetch `Response`, as far as the client reads it: the status code and
what `response.text()` settles to (the body text, or a fault while reading). -/
structure Response where
  status : Nat
  text : Except JSError JSString

/-- The attribute `response.ok` of the Fetch standard: the status is in the
range 200 to 299. -/
def Response.ok (r : Response) : Bool := decide (200 ≤ r.status ∧ r.status ≤ 299)

/-- The behaviour of `fetch`: for each request either a response or a
rejection (network fault). -/
abbrev Transport := Request → Except JSError Response

/-- A line written to the console. -/
inductive ConsoleEntry
  | log (text : JSString) (arg : JSString)
  | error (text : JSString) (err : JSError)
  deriving DecidableEq

/-- The outcome of running an operation: its completion (a returned value or a
thrown fault), the `fetch` calls it made and the console lines it wrote, both
in order. -/
structure Run (α : Type) where
  completion : Except JSError α
  requests : List Request
  console : List ConsoleEntry

/-! ## URI encoding: `encodeURIComponent`, `decodeURIComponent` -/

/-- The UTF-8 encoding of a code point (a scalar value below 0x110000). -/
def utf8Encode (cp : Nat) : List Nat :=
  if cp < 0x80 then [cp]
  else if cp < 0x800 then [0xC0 + cp / 64, 0x80 + cp % 64]
  else if cp < 0x10000 then [0xE0 + cp / 4096, 0x80 + cp / 64 % 64, 0x80 + cp % 64]
  else [0xF0 + cp / 262144, 0x80 + cp / 4096 % 64, 0x80 + cp / 64 % 64, 0x80 + cp % 64]

/-- The code unit of the upper-case hexadecimal digit `d` (`d < 16`). -/
def hexUpper (d : Nat) : CodeUnit :=
  if d % 16 < 10 then Fin.ofNat (0x30 + d % 16) else Fin.ofNat (0x41 + (d % 16 - 10))

/-- The escape of one octet: a percent sign and two upper-case hexadecimal
digits. -/
def percentEncodeByte (b : Nat) : JSString := [0x25, hexUpper (b / 16), hexUpper (b % 16)]

/-- The escapes of a sequence of octets. -/
def percentEncode (bs : List Nat) : JSString := bs.flatMap percentEncodeByte

/-- The characters `encodeURIComponent` leaves alone: ASCII letters, decimal
digits and the marks `- _ . ! ~ * ' ( )`. -/
def isUnreserved (c : CodeUnit) : Bool :=
  decide ((0x41 ≤ c.val ∧ c.val ≤ 0x5A) ∨ (0x61 ≤ c.val ∧ c.val ≤ 0x7A)
    ∨ (0x30 ≤ c.val ∧ c.val ≤ 0x39)
    ∨ c.val ∈ [0x2D, 0x5F, 0x2E, 0x21, 0x7E, 0x2A, 0x27, 0x28, 0x29])

/-- UTF16SurrogatePairToCodePoint. -/
def surrogatePair (lead trail : CodeUnit) : Nat :=
  0x10000 + (lead.val - 0xD800) * 0x400 + (trail.val - 0xDC00)

/-- The built-in `encodeURIComponent` applied to a string (Encode of ECMA-262
with the unreserved set above): the string is read code point by code point, an
unreserved character is copied and any other code point is replaced by the
escapes of its UTF-8 octets; `none` stands for the URIError thrown at an
unpaired surrogate. -/
def encodeURIComponent : JSString → Option JSString
  | [] => some []
  | [c] =>
    if isUnreserved c then some [c]
    else if isLeadSurrogate c ∨ isTrailSurrogate c then none
    else some (percentEncode (utf8Encode c.val))
  | c :: d :: rest =>
    if isUnreserved c then (encodeURIComponent (d :: rest)).map (c :: ·)
    else if isLeadSurrogate c then
      if isTrailSurrogate d then
        (encodeURIComponent rest).map (percentEncode (utf8Encode (surrogatePair c d)) ++ ·)
      else none
    else if isTrailSurrogate c then none
    else (encodeURIComponent (d :: rest)).map (percentEncode (utf8Encode c.val) ++ ·)

/-- The built-in `String.prototype.isWellFormed`: no unpaired surrogate. -/
def isWellFormed : JSString → Bool
  | [] => true
  | [c] => !(isLeadSurrogate c || isTrailSurrogate c)
  | c :: d :: rest =>
    if isLeadSurrogate c then isTrailSurrogate d && isWellFormed rest
    else !isTrailSurrogate c && isWellFormed (d :: rest)

/-- The value of a hexadecimal digit. -/
def hexValue (c : CodeUnit) : Option Nat :=
  if 0x30 ≤ c.val ∧ c.val ≤ 0x39 then some (c.val - 0x30)
  else if 0x41 ≤ c.val ∧ c.val ≤ 0x46 then some (c.val - 0x41 + 10)
  else if 0x61 ≤ c.val ∧ c.val ≤ 0x66 then some (c.val - 0x61 + 10)
  else none

/-- The items of an escaped string: a literal code unit or an escaped octet. -/
inductive UriToken
  | lit (c : CodeUnit)
  | octet (b : Nat)
  deriving DecidableEq

/-- The items of a string in which every percent sign must start an escape
(`none` when one is not followed by two hexadecimal digits). -/
def uriTokens : JSString → Option (List UriToken)
  | [] => some []
  | [c] => if c.val = 0x25 then none else some [.lit c]
  | [c, d] => if c.val = 0x25 then none else (uriTokens [d]).map (.lit c :: ·)
  | c :: h1 :: h2 :: rest =>
    if c.val = 0x25 then
      match hexValue h1, hexValue h2 with
      | some a, some b => (uriTokens rest).map (.octet (16 * a + b) :: ·)
      | _, _ => none
    else (uriTokens (h1 :: h2 :: rest)).map (.lit c :: ·)

/-- UTF-8 continuation octets. -/
def isContinuation (b : Nat) : Bool := decide (0x80 ≤ b ∧ b ≤ 0xBF)

/-- The code point of a well-formed two-octet UTF-8 sequence. -/
def utf8Decode2 (b0 b1 : Nat) : Option Nat :=
  if 0xC2 ≤ b0 ∧ b0 ≤ 0xDF ∧ isContinuation b1 then some ((b0 - 0xC0) * 64 + (b1 - 0x80))
  else none

/-- The code point of a well-formed three-octet UTF-8 sequence (not overlong,
not a surrogate). -/
def utf8Decode3 (b0 b1 b2 : Nat) : Option Nat :=
  let cp := (b0 - 0xE0) * 4096 + (b1 - 0x80) * 64 + (b2 - 0x80)
  if 0xE0 ≤ b0 ∧ b0 ≤ 0xEF ∧ isContinuation b1 ∧ isContinuation b2
      ∧ 0x800 ≤ cp ∧ ¬ (0xD800 ≤ cp ∧ cp ≤ 0xDFFF) then some cp
  else none

/-- The code point of a well-formed four-octet UTF-8 sequence (not overlong,
at most U+10FFFF). -/
def utf8Decode4 (b0 b1 b2 b3 : Nat) : Option Nat :=
  let cp := (b0 - 0xF0) * 262144 + (b1 - 0x80) * 4096 + (b2 - 0x80) * 64 + (b3 - 0x80)
  if 0xF0 ≤ b0 ∧ b0 ≤ 0xF7 ∧ isContinuation b1 ∧ isContinuation b2 ∧ isContinuation b3
      ∧ 0x10000 ≤ cp ∧ cp ≤ 0x10FFFF then some cp
  else none

/-- The code point of a complete UTF-8 sequence of two to four octets, when it
is a valid encoding. -/
def utf8DecodeOctets : List Nat → Option Nat
  | [b0, b1] => utf8Decode2 b0 b1
  | [b0, b1, b2] => utf8Decode3 b0 b1 b2
  | [b0, b1, b2, b3] => utf8Decode4 b0 b1 b2 b3
  | _ => none

/-- The number of leading one bits of a first octet between 0xC0 and 0xF7: the
length of the sequence it starts. -/
def sequenceLength (b0 : Nat) : Nat :=
  if b0 < 0xE0 then 2 else if b0 < 0xF0 then 3 else 4

/-- Decode of ECMA-262 on the items of the string, with the octets collected so
far for the current code point in `pending`: a literal is copied; an escaped
octet below 0x80 is that character; an escaped octet with `n` leading one bits
(2 ≤ n ≤ 4) must be followed by `n - 1` escaped octets, and the `n` octets must
be the UTF-8 encoding of a code point, which is appended in UTF-16; anything
else is a URIError (`none`). -/
def decodeTokensAux : List Nat → List UriToken → Option JSString
  | pending, [] => if pending = [] then some [] else none
  | pending, .lit c :: rest =>
    if pending = [] then (decodeTokensAux [] rest).map (c :: ·) else none
  | pending, .octet b :: rest =>
    if pending = [] then
      if b < 0x80 then (decodeTokensAux [] rest).map (Fin.ofNat b :: ·)
      else if b < 0xC0 ∨ 0xF8 ≤ b then none
      else decodeTokensAux [b] rest
    else if (pending ++ [b]).length < sequenceLength (pending.headD 0) then
      decodeTokensAux (pending ++ [b]) rest
    else
      (utf8DecodeOctets (pending ++ [b])).bind fun cp =>
        (decodeTokensAux [] rest).map (utf16EncodeCodePoint cp ++ ·)

/-- Decode of ECMA-262 on the items of a whole string. -/
def decodeTokens (tokens : List UriToken) : Option JSString := decodeTokensAux [] tokens

/-- The built-in `decodeURIComponent` applied to a string; `none` stands for
the URIError thrown at a malformed escape. -/
def decodeURIComponent (s : JSString) : Option JSString :=
  (uriTokens s).bind decodeTokens

/-! ## `URLSearchParams` (WHATWG URL standard) -/

/-- The scalar value a code unit stands for on its own: U+FFFD for a
surrogate. -/
def scalarOfUnit (c : CodeUnit) : Nat :=
  if isLeadSurrogate c ∨ isTrailSurrogate c then 0xFFFD else c.val

/-- Conversion of a string to scalar values (USVString): surrogate pairs are
combined, unpaired surrogates are replaced by U+FFFD. -/
def toScalarValues : JSString → List Nat
  | [] => []
  | [c] => [scalarOfUnit c]
  | c :: d :: rest =>
    if isLeadSurrogate c ∧ isTrailSurrogate d then surrogatePair c d :: toScalarValues rest
    else scalarOfUnit c :: toScalarValues (d :: rest)

/-- UTF-8 encode of a string. -/
def utf8EncodeString (s : JSString) : List Nat := (toScalarValues s).flatMap utf8Encode

/-- The value of a hexadecimal digit given as an octet. -/
def hexValueByte (b : Nat) : Option Nat :=
  if 0x30 ≤ b ∧ b ≤ 0x39 then some (b - 0x30)
  else if 0x41 ≤ b ∧ b ≤ 0x46 then some (b - 0x41 + 10)
  else if 0x61 ≤ b ∧ b ≤ 0x66 then some (b - 0x61 + 10)
  else none

/-- Percent-decode of the URL standard: an escape becomes its octet, a percent
sign that is not followed by two hexadecimal digits is kept. -/
def percentDecode : List Nat → List Nat
  | [] => []
  | [b] => [b]
  | [b, c] => b :: percentDecode [c]
  | b :: h1 :: h2 :: rest =>
    if b = 0x25 then
      match hexValueByte h1, hexValueByte h2 with
      | some x, some y => (16 * x + y) :: percentDecode rest
      | _, _ => b :: percentDecode (h1 :: h2 :: rest)
    else b :: percentDecode (h1 :: h2 :: rest)

/-- The state of the UTF-8 decoder of the Encoding standard: the code point
being assembled, the number of octets still needed for it, and the bounds for
the next octet. -/
structure Utf8State where
  codePoint : Nat
  needed : Nat
  lower : Nat
  upper : Nat

/-- The state between code points. -/
def Utf8State.initial : Utf8State := ⟨0, 0, 0x80, 0xBF⟩

/-- The decoder on an octet when no octet is needed: what it emits and the
state it moves to. -/
def utf8Start (b : Nat) : List Nat × Utf8State :=
  if b < 0x80 then ([b], .initial)
  else if 0xC2 ≤ b ∧ b ≤ 0xDF then ([], ⟨b - 0xC0, 1, 0x80, 0xBF⟩)
  else if 0xE0 ≤ b ∧ b ≤ 0xEF then
    ([], ⟨b - 0xE0, 2, if b = 0xE0 then 0xA0 else 0x80, if b = 0xED then 0x9F else 0xBF⟩)
  else if 0xF0 ≤ b ∧ b ≤ 0xF4 then
    ([], ⟨b - 0xF0, 3, if b = 0xF0 then 0x90 else 0x80, if b = 0xF4 then 0x8F else 0xBF⟩)
  else ([0xFFFD], .initial)

/-- The UTF-8 decoder of the Encoding standard run from a state with error
mode replacement: well-formed sequences give their code point; at an octet
that does not fit, U+FFFD is emitted and that octet is handled afresh; a
truncated sequence at the end gives U+FFFD. -/
def utf8DecodeLossyAux : Utf8State → List Nat → List Nat
  | st, [] => if st.needed = 0 then [] else [0xFFFD]
  | st, b :: rest =>
    if st.needed = 0 then (utf8Start b).1 ++ utf8DecodeLossyAux (utf8Start b).2 rest
    else if b < st.lower ∨ st.upper < b then
      0xFFFD :: ((utf8Start b).1 ++ utf8DecodeLossyAux (utf8Start b).2 rest)
    else if st.needed = 1 then
      (st.codePoint * 64 + (b - 0x80)) :: utf8DecodeLossyAux .initial rest
    else
      utf8DecodeLossyAux ⟨st.codePoint * 64 + (b - 0x80), st.needed - 1, 0x80, 0xBF⟩ rest

/-- UTF-8 decode without BOM of the Encoding standard. -/
def utf8DecodeLossy (bytes : List Nat) : List Nat := utf8DecodeLossyAux .initial bytes

/-- The pieces of a sequence of octets between occurrences of `sep`. -/
def splitOn (sep : Nat) : List Nat → List (List Nat)
  | [] => [[]]
  | b :: rest =>
    if b = sep then [] :: splitOn sep rest
    else
      match splitOn sep rest with
      | seg :: segs => (b :: seg) :: segs
      | [] => [[b]]

/-- The urlencoded parser replaces a plus sign by a space. -/
def plusToSpace (b : Nat) : Nat := if b = 0x2B then 0x20 else b

/-- A name or value of the urlencoded parser: plus signs become spaces, escapes
are percent-decoded and the octets UTF-8 decoded to a string. -/
def formDecode (bs : List Nat) : JSString :=
  (utf8DecodeLossy (percentDecode (bs.map plusToSpace))).flatMap utf16EncodeCodePoint

/-- The `application/x-www-form-urlencoded` parser: the input is split at `&`,
empty pieces are skipped, each piece is split at its first `=` into the name and
the value (empty without `=`), and both are decoded. -/
def parseUrlencoded (input : List Nat) : List (JSString × JSString) :=
  (splitOn 0x26 input).filterMap fun piece =>
    if piece = [] then none
    else some (formDecode (piece.takeWhile (· ≠ 0x3D)),
      formDecode ((piece.dropWhile (· ≠ 0x3D)).drop 1))

/-- The list of a `new URLSearchParams(init)` for a string `init`: a leading
question mark is dropped and the rest is parsed. -/
def URLSearchParams (init : JSString) : List (JSString × JSString) :=
  parseUrlencoded (utf8EncodeString
    (match init with
     | c :: rest => if c.val = 0x3F then rest else init
     | [] => []))

/-- The method `get(name)`: the value of the first pair with that name, or
`null` (`none`). -/
def URLSearchParams.get (params : List (JSString × JSString)) (name : JSString) :
    Option JSString :=
  (params.find? fun p => decide (p.1 = name)).map (·.2)

/-! ## The module `html/index.js` -/

/-- The function `getBackendURL`, applied to `window.location.search`: the
value of the query parameter `backend` when it is truthy (logged to the
console), the empty string otherwise. -/
def getBackendURL (search : JSString) : JSString × List ConsoleEntry :=
  let urlParams := URLSearchParams search
  let backend := URLSearchParams.get urlParams (js "backend")
  match backend with
  | some b =>
    if toBoolean (.str b) then (b, [.log (js "Using backend:") b])
    else ([], [])
  | none => ([], [])

/-- The value of the module constant `BACKEND_URL = getBackendURL()`, computed
once when the script is loaded, for a page with the given search string. The
functions below take that constant as their first argument. -/
def backendURL (search : JSString) : JSString := (getBackendURL search).1

/-- The function `getRequest(endpoint)`. `BACKEND_URL` is the module constant
and `fetch` the behaviour of the transport. A response that is not `ok` and a
rejection of `fetch` are both logged and rethrown. -/
def getRequest (BACKEND_URL : JSString) (fetch : Transport) (endpoint : JSString) :
    Run Response :=
  let request : Request := ⟨.GET, BACKEND_URL ++ endpoint, [], none⟩
  match fetch request with
  | .ok response =>
    if !response.ok then
      let error := newError (js "HTTP error! status: " ++ natToDecimal response.status)
      ⟨.error error, [request], [.error (js "Error fetching " ++ endpoint ++ js ":") error]⟩
    else ⟨.ok response, [request], []⟩
  | .error error =>
    ⟨.error error, [request], [.error (js "Error fetching " ++ endpoint ++ js ":") error]⟩

/-- The function `postRequest(endpoint, data = null)`; `undefined` for `data`
is the omitted argument, which takes the default `null`. The options are built
inside the `try` block, so a fault thrown by `JSON.stringify` is logged and
rethrown like any other, before `fetch` is called. -/
def postRequest (BACKEND_URL : JSString) (fetch : Transport) (endpoint : JSString)
    (data : JSValue) : Run Response :=
  let data : JSValue := match data with
    | .undefined => .null
    | d => d
  let options : Except JSError (List (JSString × JSString) × Option JSString) :=
    if toBoolean data then
      match jsonStringify data with
      | .ok body => .ok ([(js "Content-Type", js "application/json")], body)
      | .error error => .error error
    else .ok ([], none)
  match options with
  | .error error =>
    ⟨.error error, [], [.error (js "Error posting to " ++ endpoint ++ js ":") error]⟩
  | .ok (headers, body) =>
    match fetch ⟨.POST, BACKEND_URL ++ endpoint, headers, body⟩ with
    | .ok response =>
      if !response.ok then
        let error := newError (js "HTTP error! status: " ++ natToDecimal response.status)
        ⟨.error error, [⟨.POST, BACKEND_URL ++ endpoint, headers, body⟩],
          [.error (js "Error posting to " ++ endpoint ++ js ":") error]⟩
      else ⟨.ok response, [⟨.POST, BACKEND_URL ++ endpoint, headers, body⟩], []⟩
    | .error error =>
      ⟨.error error, [⟨.POST, BACKEND_URL ++ endpoint, headers, body⟩],
        [.error (js "Error posting to " ++ endpoint ++ js ":") error]⟩

/-- The function `getParameter(paramKey)`. -/
def getParameter (BACKEND_URL : JSString) (fetch : Transport) (paramKey : JSString) :
    Run JSValue :=
  let r := getRequest BACKEND_URL fetch (js "/get?param=" ++ paramKey)
  match r.completion with
  | .ok response =>
    match response.text with
    | .ok value =>
      if paramKey = js "hostname" ∨ paramKey = js "snapserver_host" then
        ⟨.ok (.str (trim value)), r.requests, r.console⟩
      else if paramKey = js "snapserver_port" then
        let trimmed := trim value
        ⟨.ok (if trimmed = [] then .str [] else .num (parseFloat trimmed)),
          r.requests, r.console⟩
      else ⟨.ok (.num (parseFloat value)), r.requests, r.console⟩
    | .error error =>
      ⟨.ok .null, r.requests,
        r.console ++ [.error (js "Error fetching parameter " ++ paramKey ++ js ":") error]⟩
  | .error error =>
    ⟨.ok .null, r.requests,
      r.console ++ [.error (js "Error fetching parameter " ++ paramKey ++ js ":") error]⟩

/-- The values `setParameter` is documented to take: a number or a string. -/
inductive ParamValue
  | num (x : JSNumber)
  | str (s : JSString)

/-- ToString of a parameter value. -/
def ParamValue.toJSString : ParamValue → JSString
  | .num x => numberToString x
  | .str s => s

/-- The URIError thrown by `encodeURIComponent` (the message is the one of V8;
ECMA-262 leaves it to the implementation). -/
def uriError : JSError := ⟨js "URIError", js "URI malformed"⟩

/-- The endpoint `setParameter` passes to `postRequest`, when building it does
not throw. -/
def setParameterEndpoint (paramKey : JSString) (value : ParamValue) : Option JSString :=
  (encodeURIComponent value.toJSString).map fun encoded =>
    js "/post?param=" ++ paramKey ++ js "&value=" ++ encoded

/-- The function `setParameter(paramKey, value)`. -/
def setParameter (BACKEND_URL : JSString) (fetch : Transport) (paramKey : JSString)
    (value : ParamValue) : Run Bool :=
  match setParameterEndpoint paramKey value with
  | none =>
    ⟨.ok false, [], [.error (js "Error setting parameter " ++ paramKey ++ js ":") uriError]⟩
  | some endpoint =>
    let r := postRequest BACKEND_URL fetch endpoint .undefined
    match r.completion with
    | .ok _ => ⟨.ok true, r.requests, r.console⟩
    | .error error =>
      ⟨.ok false, r.requests,
        r.console ++ [.error (js "Error setting parameter " ++ paramKey ++ js ":") error]⟩

/-- The function `deleteParameter(paramKey)`. The module constant
`BACKEND_URL` is in scope but the function does not use it. -/
def deleteParameter (_BACKEND_URL : JSString) (fetch : Transport) (paramKey : JSString) :
    Run Bool :=
  let request : Request := ⟨.DELETE, js "/delete?param=" ++ paramKey, [], none⟩
  match fetch request with
  | .ok response =>
    if !response.ok then
      let error := newError (js "HTTP error " ++ natToDecimal response.status)
      ⟨.ok false, [request],
        [.error (js "Error deleting parameter " ++ paramKey ++ js ":") error]⟩
    else ⟨.ok true, [request], []⟩
  | .error error =>
    ⟨.ok false, [request],
      [.error (js "Error deleting parameter " ++ paramKey ++ js ":") error]⟩

/-! ## Vocabulary of the statements -/
/-- Whether the transport answered with a response whose status is a success
(200 to 299); a rejection is not a success. -/
def succeeded (answer : Except JSError Response) : Bool :=
  match answer with
  | .ok response => response.ok
  | .error _ => false

/-- The request `getRequest` issues for an endpoint. -/
def getRequestSent (BACKEND_URL endpoint : JSString) : Request :=
  ⟨.GET, BACKEND_URL ++ endpoint, [], none⟩

/-- A transport that rejects every request with the given fault. -/
def rejecting (fault : JSError) : Transport := fun _ => .error fault

/-- A transport that answers every request with the given status and body
text. -/
def answering (status : Nat) (body : JSString) : Transport :=
  fun _ => .ok ⟨status, .ok body⟩

/-- The string `t` is `b` with its leading and trailing white space and line
terminators removed: `b` is `t` between two runs of white space, and `t`
neither starts nor ends with white space. -/
def IsTrimOf (b t : JSString) : Prop :=
  ∃ pre post, b = pre ++ t ++ post
    ∧ (∀ c ∈ pre, isWhiteSpace c = true) ∧ (∀ c ∈ post, isWhiteSpace c = true)
    ∧ (∀ c, t.head? = some c → isWhiteSpace c = false)
    ∧ (∀ c, t.getLast? = some c → isWhiteSpace c = false)


/-- The request `postRequest` issues for an endpoint and a `data` argument:
none when `data` is truthy and `JSON.stringify` throws at it. -/
def postRequestSent (BACKEND_URL endpoint : JSString) (data : JSValue) : Option Request :=
  if toBoolean data then
    match jsonStringify data with
    | .ok body =>
      some ⟨.POST, BACKEND_URL ++ endpoint, [(js "Content-Type", js "application/json")], body⟩
    | .error _ => none
  else some ⟨.POST, BACKEND_URL ++ endpoint, [], none⟩

/-- The status code carried by the fault thrown for a failed response: the
decimal number that ends its message `HTTP error! status: <code>`. -/
def statusOfError (err : JSError) : Option Nat :=
  let digits := err.message.drop (js "HTTP error! status: ").length
  if err.message.take (js "HTTP error! status: ").length = js "HTTP error! status: "
      ∧ digits ≠ [] ∧ digits.all isDigit then some (digitsValue digits)
  else none

/-- The string consists of ASCII characters only. -/
def IsAscii (s : JSString) : Prop := ∀ c ∈ s, c.val < 0x80

/-- The query-string delimiters `&`, `=`, `#`, `?`, `+` and the space. -/
def isQueryDelimiter (c : CodeUnit) : Bool :=
  decide (c.val ∈ [0x26, 0x3D, 0x23, 0x3F, 0x2B, 0x20])

/-- ASCII tab or newline: the characters the URL parser removes from its
input. -/
def isTabOrNewline (c : CodeUnit) : Bool :=
  decide (c.val = 0x09 ∨ c.val = 0x0A ∨ c.val = 0x0D)

/-- C0 control or space: the characters the URL parser strips from both ends
of its input. -/
def isC0OrSpace (c : CodeUnit) : Bool := decide (c.val ≤ 0x20)

/-- The query of a URL string, with its question mark, as the URL parser
delimits it: leading and trailing C0 controls and spaces are stripped, tabs and
newlines are removed, the fragment (from the first number sign) is cut off, and
the query is what is left from the first question mark on; empty when there is
none. (The parser also percent-encodes some characters of the query; the
percent-decoding of `URLSearchParams` undoes that, so it is not applied
here.) -/
def urlQuery (url : JSString) : JSString :=
  let stripped := ((url.dropWhile isC0OrSpace).reverse.dropWhile isC0OrSpace).reverse
  let input := stripped.filter fun c => !isTabOrNewline c
  (input.takeWhile fun c => decide (c.val ≠ 0x23)).dropWhile fun c => decide (c.val ≠ 0x3F)

mutual
/-- Plain data: a tree of primitives, arrays and plain objects, without any
value of the other kind (function, symbol, BigInt, `toJSON`, cycle). -/
def isPlain : JSValue → Bool
  | .arr items => allPlain items
  | .obj fields => allPlainFields fields
  | .other _ _ => false
  | _ => true
/-- Every element is plain data. -/
def allPlain : List JSValue → Bool
  | [] => true
  | v :: rest => isPlain v && allPlain rest
/-- Every property value is plain data. -/
def allPlainFields : List (JSString × JSValue) → Bool
  | [] => true
  | (_, v) :: rest => isPlain v && allPlainFields rest
end

/-! ## Properties of the parameter client -/

theorem getRequest_rejected {BACKEND_URL : JSString} {fetch : Transport} {endpoint : JSString}
    {e : JSError} (h : fetch (getRequestSent BACKEND_URL endpoint) = .error e) :
    getRequest BACKEND_URL fetch endpoint =
      ⟨.error e, [getRequestSent BACKEND_URL endpoint],
        [.error (js "Error fetching " ++ endpoint ++ js ":") e]⟩ := by
  simp only [getRequest, getRequestSent] at h ⊢
  rw [h]

theorem getRequest_failed {BACKEND_URL : JSString} {fetch : Transport} {endpoint : JSString}
    {r : Response} (h : fetch (getRequestSent BACKEND_URL endpoint) = .ok r)
    (hok : r.ok = false) :
    getRequest BACKEND_URL fetch endpoint =
      ⟨.error (newError (js "HTTP error! status: " ++ natToDecimal r.status)),
        [getRequestSent BACKEND_URL endpoint],
        [.error (js "Error fetching " ++ endpoint ++ js ":")
          (newError (js "HTTP error! status: " ++ natToDecimal r.status))]⟩ := by
  simp only [getRequest, getRequestSent] at h ⊢
  rw [h]
  simp only [hok, Bool.not_false, if_true]

theorem getRequest_succeeded {BACKEND_URL : JSString} {fetch : Transport}
    {endpoint : JSString} {r : Response}
    (h : fetch (getRequestSent BACKEND_URL endpoint) = .ok r) (hok : r.ok = true) :
    getRequest BACKEND_URL fetch endpoint =
      ⟨.ok r, [getRequestSent BACKEND_URL endpoint], []⟩ := by
  simp only [getRequest, getRequestSent] at h ⊢
  rw [h]
  simp only [hok, Bool.not_true, Bool.false_eq_true, if_false]

/-- What `getParameter` returns when the request fails. -/
theorem getParameter_of_error {BACKEND_URL : JSString} {fetch : Transport}
    {paramKey : JSString} {e : JSError}
    (h : (getRequest BACKEND_URL fetch (js "/get?param=" ++ paramKey)).completion = .error e) :
    (getParameter BACKEND_URL fetch paramKey).completion = .ok .null := by
  simp only [getParameter]
  rw [h]

/-- What `getParameter` returns when the request succeeds and the body cannot
be read. -/
theorem getParameter_of_unreadable {BACKEND_URL : JSString} {fetch : Transport}
    {paramKey : JSString} {r : Response} {e : JSError}
    (h : (getRequest BACKEND_URL fetch (js "/get?param=" ++ paramKey)).completion = .ok r)
    (ht : r.text = .error e) :
    (getParameter BACKEND_URL fetch paramKey).completion = .ok .null := by
  simp only [getParameter]
  rw [h]
  simp only [ht]

/-- What `getParameter` returns when the request succeeds with body text
`value`. -/
theorem getParameter_of_text {BACKEND_URL : JSString} {fetch : Transport}
    {paramKey : JSString} {r : Response} {value : JSString}
    (h : (getRequest BACKEND_URL fetch (js "/get?param=" ++ paramKey)).completion = .ok r)
    (ht : r.text = .ok value) :
    (getParameter BACKEND_URL fetch paramKey).completion =
      .ok (if paramKey = js "hostname" ∨ paramKey = js "snapserver_host" then .str (trim value)
        else if paramKey = js "snapserver_port" then
          (if trim value = [] then .str [] else .num (parseFloat (trim value)))
        else .num (parseFloat value)) := by
  simp only [getParameter]
  rw [h]
  simp only [ht]
  split_ifs <;> rfl

/-- C1: `getParameter` always completes normally, and whenever `fetch`
rejects, or the response status is not a success, or reading the body fails,
the value it returns is `null`. -/
theorem getParameter_never_throws (BACKEND_URL : JSString) (fetch : Transport)
    (paramKey : JSString) :
    (∃ v, (getParameter BACKEND_URL fetch paramKey).completion = .ok v) ∧
    (((∃ e, fetch (getRequestSent BACKEND_URL (js "/get?param=" ++ paramKey)) = .error e) ∨
      (∃ r, fetch (getRequestSent BACKEND_URL (js "/get?param=" ++ paramKey)) = .ok r
        ∧ r.ok = false) ∨
      (∃ r e, fetch (getRequestSent BACKEND_URL (js "/get?param=" ++ paramKey)) = .ok r
        ∧ r.text = .error e)) →
      (getParameter BACKEND_URL fetch paramKey).completion = .ok .null) := by
  constructor
  · cases hf : fetch (getRequestSent BACKEND_URL (js "/get?param=" ++ paramKey)) with
    | error e => exact ⟨_, getParameter_of_error (by rw [getRequest_rejected hf])⟩
    | ok r =>
      cases hok : r.ok with
      | false => exact ⟨_, getParameter_of_error (by rw [getRequest_failed hf hok])⟩
      | true =>
        cases ht : r.text with
        | error e =>
          exact ⟨_, getParameter_of_unreadable (by rw [getRequest_succeeded hf hok]) ht⟩
        | ok value => exact ⟨_, getParameter_of_text (by rw [getRequest_succeeded hf hok]) ht⟩
  · rintro (⟨e, he⟩ | ⟨r, hr, hok⟩ | ⟨r, e, hr, ht⟩)
    · exact getParameter_of_error (by rw [getRequest_rejected he])
    · exact getParameter_of_error (by rw [getRequest_failed hr hok])
    · cases hok : r.ok with
      | false => exact getParameter_of_error (by rw [getRequest_failed hr hok])
      | true => exact getParameter_of_unreadable (by rw [getRequest_succeeded hr hok]) ht

/-- C1, at a transport that rejects with a network fault. -/
theorem getParameter_never_throws_witness :
    (getParameter (js "http://host:1780") (rejecting ⟨js "TypeError", js "Failed to fetch"⟩)
      (js "volume")).completion = .ok .null :=
  (getParameter_never_throws (js "http://host:1780")
    (rejecting ⟨js "TypeError", js "Failed to fetch"⟩) (js "volume")).2
    (Or.inl ⟨_, rfl⟩)

/-- The built-in `trim` removes exactly the white space at both ends. -/
theorem trim_isTrimOf (b : JSString) : IsTrimOf b (trim b) := by
  have hpre : (b.dropWhile isWhiteSpace).rdropWhile isWhiteSpace <+:
      b.dropWhile isWhiteSpace := List.rdropWhile_prefix _ _
  refine ⟨b.takeWhile isWhiteSpace, (b.dropWhile isWhiteSpace).rtakeWhile isWhiteSpace,
    ?_, ?_, ?_, ?_, ?_⟩
  · have h1 : (b.dropWhile isWhiteSpace).rdropWhile isWhiteSpace
        ++ (b.dropWhile isWhiteSpace).rtakeWhile isWhiteSpace = b.dropWhile isWhiteSpace := by
      have h := List.takeWhile_append_dropWhile isWhiteSpace (b.dropWhile isWhiteSpace).reverse
      have h2 := congrArg List.reverse h
      rw [List.reverse_append, List.reverse_reverse] at h2
      exact h2
    show b = b.takeWhile isWhiteSpace ++ (b.dropWhile isWhiteSpace).rdropWhile isWhiteSpace
      ++ (b.dropWhile isWhiteSpace).rtakeWhile isWhiteSpace
    rw [List.append_assoc, h1, List.takeWhile_append_dropWhile]
  · intro c hc
    exact (List.mem_takeWhile_imp hc)
  · intro c hc
    exact List.mem_rtakeWhile_imp hc
  · intro c hc
    change ((b.dropWhile isWhiteSpace).rdropWhile isWhiteSpace).head? = some c at hc
    obtain ⟨t, ht⟩ := hpre
    have h := List.head?_dropWhile_not isWhiteSpace b
    rw [← ht] at h
    cases hr : (b.dropWhile isWhiteSpace).rdropWhile isWhiteSpace with
    | nil => rw [hr] at hc; cases hc
    | cons x xs =>
      rw [hr] at hc h
      simp only [List.head?_cons, Option.some.injEq] at hc
      simp only [List.cons_append, List.head?_cons] at h
      rw [← hc]; exact h
  · intro c hc
    change ((b.dropWhile isWhiteSpace).rdropWhile isWhiteSpace).getLast? = some c at hc
    have hne : (b.dropWhile isWhiteSpace).rdropWhile isWhiteSpace ≠ [] := by
      intro h; rw [h] at hc; cases hc
    have h := List.rdropWhile_last_not isWhiteSpace _ hne
    rw [List.getLast?_eq_getLast _ hne, Option.some.injEq] at hc
    rw [← hc]
    simpa using h

/-- C2: for a key other than `hostname`, `snapserver_host` and
`snapserver_port`, whatever the transport does and whatever the body text is,
`getParameter` returns `null` or a Number, and never a string. -/
theorem getParameter_numeric (BACKEND_URL : JSString) (fetch : Transport)
    (paramKey : JSString) (h1 : paramKey ≠ js "hostname")
    (h2 : paramKey ≠ js "snapserver_host") (h3 : paramKey ≠ js "snapserver_port") :
    ((getParameter BACKEND_URL fetch paramKey).completion = .ok .null ∨
      ∃ x, (getParameter BACKEND_URL fetch paramKey).completion = .ok (.num x)) ∧
    ∀ s, (getParameter BACKEND_URL fetch paramKey).completion ≠ .ok (.str s) := by
  have key : (getParameter BACKEND_URL fetch paramKey).completion = .ok .null ∨
      ∃ x, (getParameter BACKEND_URL fetch paramKey).completion = .ok (.num x) := by
    cases hf : fetch (getRequestSent BACKEND_URL (js "/get?param=" ++ paramKey)) with
    | error e => exact Or.inl (getParameter_of_error (by rw [getRequest_rejected hf]))
    | ok r =>
      cases hok : r.ok with
      | false => exact Or.inl (getParameter_of_error (by rw [getRequest_failed hf hok]))
      | true =>
        cases ht : r.text with
        | error e =>
          exact Or.inl (getParameter_of_unreadable (by rw [getRequest_succeeded hf hok]) ht)
        | ok value =>
          refine Or.inr ⟨parseFloat value, ?_⟩
          rw [getParameter_of_text (by rw [getRequest_succeeded hf hok]) ht]
          rw [if_neg (by rintro (h | h) <;> contradiction), if_neg h3]
  refine ⟨key, ?_⟩
  intro s hs
  rcases key with h | ⟨x, h⟩ <;> rw [h] at hs <;> cases hs

/-- C2, at the key `volume` and a body that is not numeric. -/
theorem getParameter_numeric_witness :
    ((getParameter [] (answering 200 (js "loud")) (js "volume")).completion = .ok .null ∨
      ∃ x, (getParameter [] (answering 200 (js "loud")) (js "volume")).completion
        = .ok (.num x)) ∧
    ∀ s, (getParameter [] (answering 200 (js "loud")) (js "volume")).completion
      ≠ .ok (.str s) :=
  getParameter_numeric [] (answering 200 (js "loud")) (js "volume")
    (by decide) (by decide) (by decide)

/-- C3: for the key `snapserver_port` and a successful response with body text
`b`, `getParameter` returns the empty string when `b` trimmed is empty and the
Number parsed from the trimmed text otherwise; the bodies `""` and `"  "` give
`""` and the body `"1704"` gives the Number 1704. -/
theorem getParameter_port (BACKEND_URL : JSString) (fetch : Transport) (r : Response)
    (b : JSString)
    (hf : fetch (getRequestSent BACKEND_URL (js "/get?param=snapserver_port")) = .ok r)
    (hok : r.ok = true) (ht : r.text = .ok b) :
    IsTrimOf b (trim b) ∧
    (trim b = [] →
      (getParameter BACKEND_URL fetch (js "snapserver_port")).completion = .ok (.str [])) ∧
    (trim b ≠ [] →
      (getParameter BACKEND_URL fetch (js "snapserver_port")).completion
        = .ok (.num (parseFloat (trim b)))) ∧
    (b = js "" ∨ b = js "  " →
      (getParameter BACKEND_URL fetch (js "snapserver_port")).completion = .ok (.str (js ""))) ∧
    (b = js "1704" →
      (getParameter BACKEND_URL fetch (js "snapserver_port")).completion
        = .ok (.num (JSNumber.ofNat 1704))) ∧
    (JSNumber.ofNat 1704).isInt 1704 = true := by
  have hf2 : fetch (getRequestSent BACKEND_URL (js "/get?param=" ++ js "snapserver_port"))
      = .ok r := hf
  have hg := getParameter_of_text (by rw [getRequest_succeeded hf2 hok]) ht
  rw [if_neg (by decide), if_pos rfl] at hg
  refine ⟨trim_isTrimOf b, ?_, ?_, ?_, ?_, by decide⟩
  · intro h; rw [hg, if_pos h]
  · intro h; rw [hg, if_neg h]
  · rintro (h | h) <;> subst h <;> rw [hg] <;> rfl
  · intro h; subst h; rw [hg]
    rw [if_neg (by decide)]
    have : parseFloat (trim (js "1704")) = JSNumber.ofNat 1704 := by decide
    rw [this]

/-- C3, at the body `"1704"`. -/
theorem getParameter_port_witness :
    (getParameter [] (answering 200 (js "1704")) (js "snapserver_port")).completion
      = .ok (.num (JSNumber.ofNat 1704)) :=
  (getParameter_port [] (answering 200 (js "1704")) ⟨200, .ok (js "1704")⟩ (js "1704")
    rfl (by decide) rfl).2.2.2.2.1 rfl

/-- C4: for the keys `hostname` and `snapserver_host` and a successful response
with body text `b`, `getParameter` returns the string `b` without its leading
and trailing white space (line terminators included), not parsed as a number;
the body `"  myhost  \n"` gives `"myhost"`. -/
theorem getParameter_hostname (BACKEND_URL : JSString) (fetch : Transport)
    (paramKey : JSString) (r : Response) (b : JSString)
    (hkey : paramKey = js "hostname" ∨ paramKey = js "snapserver_host")
    (hf : fetch (getRequestSent BACKEND_URL (js "/get?param=" ++ paramKey)) = .ok r)
    (hok : r.ok = true) (ht : r.text = .ok b) :
    (getParameter BACKEND_URL fetch paramKey).completion = .ok (.str (trim b)) ∧
    IsTrimOf b (trim b) ∧
    (b = js "  myhost  \n" →
      (getParameter BACKEND_URL fetch paramKey).completion = .ok (.str (js "myhost"))) := by
  have hg := getParameter_of_text (by rw [getRequest_succeeded hf hok]) ht
  rw [if_pos hkey] at hg
  refine ⟨hg, trim_isTrimOf b, ?_⟩
  intro h; subst h; rw [hg]
  have : trim (js "  myhost  \n") = js "myhost" := by decide
  rw [this]

/-- C4, at the key `hostname` and the body `"  myhost  \n"`. -/
theorem getParameter_hostname_witness :
    (getParameter [] (answering 200 (js "  myhost  \n")) (js "hostname")).completion
      = .ok (.str (js "myhost")) :=
  (getParameter_hostname [] (answering 200 (js "  myhost  \n")) (js "hostname")
    ⟨200, .ok (js "  myhost  \n")⟩ (js "  myhost  \n") (Or.inl rfl) rfl (by decide) rfl).2.2 rfl

/-- C6: whatever the backend origin is, `deleteParameter` issues exactly one
request, a DELETE without headers or body whose URL is `/delete?param=` followed
by the key (no origin in front), and it returns `true` when the response status
is a success and `false` when it is not or when the transport rejects. -/
theorem deleteParameter_same_origin (BACKEND_URL : JSString) (fetch : Transport)
    (paramKey : JSString) :
    (deleteParameter BACKEND_URL fetch paramKey).requests
      = [⟨.DELETE, js "/delete?param=" ++ paramKey, [], none⟩] ∧
    (deleteParameter BACKEND_URL fetch paramKey).completion
      = .ok (succeeded (fetch ⟨.DELETE, js "/delete?param=" ++ paramKey, [], none⟩)) := by
  simp only [deleteParameter, succeeded]
  cases fetch ⟨.DELETE, js "/delete?param=" ++ paramKey, [], none⟩ with
  | error e => exact ⟨rfl, rfl⟩
  | ok r => cases hok : r.ok <;> simp [hok]

theorem digitsValue_append_singleton (ds : JSString) (c : CodeUnit) :
    digitsValue (ds ++ [c]) = 10 * digitsValue ds + (c.val - 0x30) := by
  simp [digitsValue, List.foldl_append]

theorem digitUnit_val {d : Nat} (h : d < 10) : (digitUnit d).val = 0x30 + d := by
  simp only [digitUnit, Fin.ofNat, Nat.mod_eq_of_lt h]
  omega

theorem isDigit_digitUnit (d : Nat) : isDigit (digitUnit d) = true := by
  have h : d % 10 < 10 := Nat.mod_lt _ (by omega)
  simp only [isDigit, digitUnit, Fin.ofNat, decide_eq_true_eq]
  omega

/-- The digits produced by `decimalAux` with enough fuel: a non-empty run of
decimal digits whose value is `n`, in front of the accumulator. -/
theorem decimalAux_spec (fuel : Nat) : ∀ (n : Nat) (acc : JSString), n < fuel →
    ∃ ds, decimalAux fuel n acc = ds ++ acc ∧ ds ≠ [] ∧ ds.all isDigit = true
      ∧ digitsValue ds = n := by
  induction fuel with
  | zero => intro n acc h; omega
  | succ fuel ih =>
    intro n acc hn
    by_cases h10 : n < 10
    · refine ⟨[digitUnit n], ?_, by simp, ?_, ?_⟩
      · simp [decimalAux, h10]
      · simp [isDigit_digitUnit]
      · simp [digitsValue, digitUnit_val h10]
    · obtain ⟨ds, hds, hne, hall, hval⟩ := ih (n / 10) (digitUnit (n % 10) :: acc) (by omega)
      refine ⟨ds ++ [digitUnit (n % 10)], ?_, by simp, ?_, ?_⟩
      · simp [decimalAux, h10, hds]
      · simp [hall, isDigit_digitUnit]
      · rw [digitsValue_append_singleton, hval,
          digitUnit_val (Nat.mod_lt _ (by omega))]
        omega

/-- The decimal representation of `n` is a non-empty run of digits of value
`n`. -/
theorem natToDecimal_spec (n : Nat) :
    natToDecimal n ≠ [] ∧ (natToDecimal n).all isDigit = true
      ∧ digitsValue (natToDecimal n) = n := by
  obtain ⟨ds, hds, hne, hall, hval⟩ := decimalAux_spec (n + 1) n [] (by omega)
  rw [List.append_nil] at hds
  rw [natToDecimal, hds]
  exact ⟨hne, hall, hval⟩

/-- The status code can be read back from the fault thrown for a failed
response. -/
theorem statusOfError_newError (status : Nat) :
    statusOfError (newError (js "HTTP error! status: " ++ natToDecimal status))
      = some status := by
  obtain ⟨hne, hall, hval⟩ := natToDecimal_spec status
  simp only [statusOfError, newError, List.take_left', List.drop_left', List.take_left,
    List.drop_left]
  rw [if_pos ⟨trivial, hne, hall⟩, hval]

/-- The function `postRequest` with the default of `data` resolved. -/
theorem postRequest_unfold (BACKEND_URL : JSString) (fetch : Transport) (endpoint : JSString)
    (data : JSValue) :
    postRequest BACKEND_URL fetch endpoint data =
      match (if toBoolean data then
          (match jsonStringify data with
            | .ok body => .ok ([(js "Content-Type", js "application/json")], body)
            | .error error => .error error)
          else .ok ([], none) :
          Except JSError (List (JSString × JSString) × Option JSString)) with
      | .error error =>
        ⟨.error error, [], [.error (js "Error posting to " ++ endpoint ++ js ":") error]⟩
      | .ok (headers, body) =>
        match fetch ⟨.POST, BACKEND_URL ++ endpoint, headers, body⟩ with
        | .ok response =>
          if !response.ok then
            ⟨.error (newError (js "HTTP error! status: " ++ natToDecimal response.status)),
              [⟨.POST, BACKEND_URL ++ endpoint, headers, body⟩],
              [.error (js "Error posting to " ++ endpoint ++ js ":")
                (newError (js "HTTP error! status: " ++ natToDecimal response.status))]⟩
          else ⟨.ok response, [⟨.POST, BACKEND_URL ++ endpoint, headers, body⟩], []⟩
        | .error error =>
          ⟨.error error, [⟨.POST, BACKEND_URL ++ endpoint, headers, body⟩],
            [.error (js "Error posting to " ++ endpoint ++ js ":") error]⟩ := by
  cases data <;> rfl

/-- The function `postRequest` in terms of the request it issues. -/
theorem postRequest_eq {BACKEND_URL : JSString} {fetch : Transport} {endpoint : JSString}
    {data : JSValue} {request : Request}
    (hs : postRequestSent BACKEND_URL endpoint data = some request) :
    postRequest BACKEND_URL fetch endpoint data =
      match fetch request with
      | .ok response =>
        if !response.ok then
          ⟨.error (newError (js "HTTP error! status: " ++ natToDecimal response.status)),
            [request],
            [.error (js "Error posting to " ++ endpoint ++ js ":")
              (newError (js "HTTP error! status: " ++ natToDecimal response.status))]⟩
        else ⟨.ok response, [request], []⟩
      | .error error =>
        ⟨.error error, [request],
          [.error (js "Error posting to " ++ endpoint ++ js ":") error]⟩ := by
  rw [postRequest_unfold]
  unfold postRequestSent at hs
  by_cases ht : toBoolean data = true
  · rw [if_pos ht] at hs ⊢
    cases hj : jsonStringify data with
    | error e => rw [hj] at hs; cases hs
    | ok body =>
      rw [hj] at hs
      simp only [Option.some.injEq] at hs
      subst hs
      rfl
  · rw [if_neg ht] at hs ⊢
    simp only [Option.some.injEq] at hs
    subst hs
    rfl

/-- When `data` is truthy and `JSON.stringify` throws at it, `postRequest`
logs and rethrows the fault without calling `fetch`. -/
theorem postRequest_of_throw {BACKEND_URL : JSString} {fetch : Transport}
    {endpoint : JSString} {data : JSValue} {e : JSError}
    (ht : toBoolean data = true) (hj : jsonStringify data = .error e) :
    postRequest BACKEND_URL fetch endpoint data =
      ⟨.error e, [], [.error (js "Error posting to " ++ endpoint ++ js ":") e]⟩ := by
  rw [postRequest_unfold, if_pos ht, hj]

theorem postRequest_rejected {BACKEND_URL : JSString} {fetch : Transport}
    {endpoint : JSString} {data : JSValue} {request : Request} {e : JSError}
    (hs : postRequestSent BACKEND_URL endpoint data = some request)
    (h : fetch request = .error e) :
    postRequest BACKEND_URL fetch endpoint data =
      ⟨.error e, [request], [.error (js "Error posting to " ++ endpoint ++ js ":") e]⟩ := by
  rw [postRequest_eq hs, h]

theorem postRequest_failed {BACKEND_URL : JSString} {fetch : Transport}
    {endpoint : JSString} {data : JSValue} {request : Request} {r : Response}
    (hs : postRequestSent BACKEND_URL endpoint data = some request)
    (h : fetch request = .ok r) (hok : r.ok = false) :
    postRequest BACKEND_URL fetch endpoint data =
      ⟨.error (newError (js "HTTP error! status: " ++ natToDecimal r.status)), [request],
        [.error (js "Error posting to " ++ endpoint ++ js ":")
          (newError (js "HTTP error! status: " ++ natToDecimal r.status))]⟩ := by
  rw [postRequest_eq hs, h]
  simp only [hok, Bool.not_false, if_true]

theorem postRequest_succeeded {BACKEND_URL : JSString} {fetch : Transport}
    {endpoint : JSString} {data : JSValue} {request : Request} {r : Response}
    (hs : postRequestSent BACKEND_URL endpoint data = some request)
    (h : fetch request = .ok r) (hok : r.ok = true) :
    postRequest BACKEND_URL fetch endpoint data = ⟨.ok r, [request], []⟩ := by
  rw [postRequest_eq hs, h]
  simp only [hok, Bool.not_true, Bool.false_eq_true, if_false]

/-- The one request `getRequest` issues. -/
theorem getRequest_requests (BACKEND_URL : JSString) (fetch : Transport)
    (endpoint : JSString) :
    (getRequest BACKEND_URL fetch endpoint).requests = [getRequestSent BACKEND_URL endpoint] := by
  cases hf : fetch (getRequestSent BACKEND_URL endpoint) with
  | error e => rw [getRequest_rejected hf]
  | ok r =>
    cases hok : r.ok with
    | false => rw [getRequest_failed hf hok]
    | true => rw [getRequest_succeeded hf hok]

/-- The requests `postRequest` issues: the one of `postRequestSent`, or none
when `JSON.stringify` throws. -/
theorem postRequest_requests (BACKEND_URL : JSString) (fetch : Transport)
    (endpoint : JSString) (data : JSValue) :
    (postRequest BACKEND_URL fetch endpoint data).requests
      = (postRequestSent BACKEND_URL endpoint data).toList := by
  cases hs : postRequestSent BACKEND_URL endpoint data with
  | none =>
    unfold postRequestSent at hs
    by_cases ht : toBoolean data = true
    · rw [if_pos ht] at hs
      cases hj : jsonStringify data with
      | error e => rw [postRequest_of_throw ht hj]; rfl
      | ok body => rw [hj] at hs; cases hs
    · rw [if_neg ht] at hs; cases hs
  | some request =>
    cases hf : fetch request with
    | error e => rw [postRequest_rejected hs hf]; rfl
    | ok r =>
      cases hok : r.ok with
      | false => rw [postRequest_failed hs hf hok]; rfl
      | true => rw [postRequest_succeeded hs hf hok]; rfl

/-- A request is built whenever `data` is falsy or `JSON.stringify` returns. -/
theorem postRequestSent_of_ok (BACKEND_URL endpoint : JSString) (data : JSValue)
    (h : toBoolean data = false ∨ ∃ body, jsonStringify data = .ok body) :
    ∃ headers body, postRequestSent BACKEND_URL endpoint data
      = some ⟨.POST, BACKEND_URL ++ endpoint, headers, body⟩ := by
  unfold postRequestSent
  by_cases ht : toBoolean data = true
  · rcases h with h | ⟨body, hb⟩
    · rw [ht] at h; cases h
    · rw [if_pos ht, hb]; exact ⟨_, _, rfl⟩
  · rw [if_neg ht]; exact ⟨_, _, rfl⟩

/-- Every request `postRequest` builds is a POST to the origin followed by
the endpoint. -/
theorem postRequestSent_url {BACKEND_URL endpoint : JSString} {data : JSValue}
    {request : Request} (hs : postRequestSent BACKEND_URL endpoint data = some request) :
    request.method = .POST ∧ request.url = BACKEND_URL ++ endpoint := by
  unfold postRequestSent at hs
  by_cases ht : toBoolean data = true
  · rw [if_pos ht] at hs
    cases hj : jsonStringify data with
    | error e => rw [hj] at hs; cases hs
    | ok body =>
      rw [hj] at hs
      simp only [Option.some.injEq] at hs
      subst hs; exact ⟨rfl, rfl⟩
  · rw [if_neg ht] at hs
    simp only [Option.some.injEq] at hs
    subst hs; exact ⟨rfl, rfl⟩

/-- C8: when the response status is not a success, `getRequest` and
`postRequest` throw a fault from which the status code can be read; when the
transport rejects before any response, they throw as well (the fault of the
transport). For `postRequest` the request is the one built from `data`, which
exists whenever `data` is falsy or `JSON.stringify` returns. -/
theorem request_failure_throws (BACKEND_URL : JSString) (fetch : Transport)
    (endpoint : JSString) (data : JSValue) :
    (∀ r, fetch (getRequestSent BACKEND_URL endpoint) = .ok r → r.ok = false →
      ∃ err, (getRequest BACKEND_URL fetch endpoint).completion = .error err
        ∧ statusOfError err = some r.status) ∧
    (∀ e, fetch (getRequestSent BACKEND_URL endpoint) = .error e →
      (getRequest BACKEND_URL fetch endpoint).completion = .error e) ∧
    (∀ request r, postRequestSent BACKEND_URL endpoint data = some request →
      fetch request = .ok r → r.ok = false →
      ∃ err, (postRequest BACKEND_URL fetch endpoint data).completion = .error err
        ∧ statusOfError err = some r.status) ∧
    (∀ request e, postRequestSent BACKEND_URL endpoint data = some request →
      fetch request = .error e →
      (postRequest BACKEND_URL fetch endpoint data).completion = .error e) ∧
    (toBoolean data = false ∨ (∃ body, jsonStringify data = .ok body) →
      ∃ headers body, postRequestSent BACKEND_URL endpoint data
        = some ⟨.POST, BACKEND_URL ++ endpoint, headers, body⟩) := by
  refine ⟨?_, ?_, ?_, ?_, postRequestSent_of_ok BACKEND_URL endpoint data⟩
  · intro r hf hok
    exact ⟨_, by rw [getRequest_failed hf hok], statusOfError_newError r.status⟩
  · intro e hf
    rw [getRequest_rejected hf]
  · intro request r hs hf hok
    exact ⟨_, by rw [postRequest_failed hs hf hok], statusOfError_newError r.status⟩
  · intro request e hs hf
    rw [postRequest_rejected hs hf]

/-- C8, at a response with status 404. -/
theorem request_failure_throws_witness :
    ∃ err, (getRequest [] (answering 404 []) (js "/get?param=volume")).completion = .error err
      ∧ statusOfError err = some 404 :=
  (request_failure_throws [] (answering 404 []) (js "/get?param=volume") .undefined).1
    ⟨404, .ok []⟩ rfl (by decide)

mutual
/-- Serialising plain data never throws, and gives a text unless the value is
`undefined`. -/
theorem jsonStringify_of_isPlain : ∀ (v : JSValue), isPlain v = true →
    ∃ t, jsonStringify v = .ok t ∧ (toBoolean v = true → ∃ text, t = some text)
  | .undefined, _ => ⟨_, by rw [jsonStringify], fun h => by simp [toBoolean] at h⟩
  | .null, _ => ⟨_, by rw [jsonStringify], fun _ => ⟨_, rfl⟩⟩
  | .bool b, _ => ⟨_, by rw [jsonStringify], fun _ => ⟨_, rfl⟩⟩
  | .num .nan, _ => ⟨_, by simp only [jsonStringify]; rfl, fun _ => ⟨_, rfl⟩⟩
  | .num (.inf _), _ => ⟨_, by simp only [jsonStringify]; rfl, fun _ => ⟨_, rfl⟩⟩
  | .num (.fin _ _ _), _ => ⟨_, by simp only [jsonStringify]; rfl, fun _ => ⟨_, rfl⟩⟩
  | .str s, _ => ⟨_, by rw [jsonStringify], fun _ => ⟨_, rfl⟩⟩
  | .arr items, h => by
    obtain ⟨parts, hp⟩ := jsonItems_of_allPlain items (by simpa [isPlain] using h)
    exact ⟨_, by rw [jsonStringify, hp], fun _ => ⟨_, rfl⟩⟩
  | .obj fields, h => by
    obtain ⟨parts, hp⟩ := jsonFields_of_allPlainFields fields (by simpa [isPlain] using h)
    exact ⟨_, by rw [jsonStringify, hp], fun _ => ⟨_, rfl⟩⟩
  | .other _ _, h => by simp [isPlain] at h
/-- Serialising the elements of an array of plain data never throws. -/
theorem jsonItems_of_allPlain : ∀ (items : List JSValue), allPlain items = true →
    ∃ parts, jsonItems items = .ok parts
  | [], _ => ⟨_, by rw [jsonItems]⟩
  | v :: rest, h => by
    have h' : isPlain v = true ∧ allPlain rest = true := by simpa [allPlain] using h
    obtain ⟨t, ht, _⟩ := jsonStringify_of_isPlain v h'.1
    obtain ⟨parts, hp⟩ := jsonItems_of_allPlain rest h'.2
    exact ⟨t.getD (js "null") :: parts, by rw [jsonItems, ht]; simp only [hp]⟩
/-- Serialising the properties of an object of plain data never throws. -/
theorem jsonFields_of_allPlainFields : ∀ (fields : List (JSString × JSValue)),
    allPlainFields fields = true → ∃ parts, jsonFields fields = .ok parts
  | [], _ => ⟨_, by rw [jsonFields]⟩
  | (k, v) :: rest, h => by
    have h' : isPlain v = true ∧ allPlainFields rest = true := by simpa [allPlainFields] using h
    obtain ⟨t, ht, _⟩ := jsonStringify_of_isPlain v h'.1
    obtain ⟨parts, hp⟩ := jsonFields_of_allPlainFields rest h'.2
    exact ⟨_, by rw [jsonFields, ht]; simp only [hp]; rfl⟩
end
/-- C9 as stated fails. For the supplied values `false`, `0` and `""`, each of
which has a JSON serialisation, the request `postRequest` issues has no body
and no `Content-Type` header; and for an object that contains itself no
request is issued at all. -/
theorem postRequest_falsy_data_counterexample :
    (jsonStringify (.bool false) = .ok (some (js "false")) ∧
      (postRequest [] (answering 200 []) (js "/post?param=x") (.bool false)).requests
        = [⟨.POST, js "/post?param=x", [], none⟩]) ∧
    (jsonStringify (.num (.fin false 0 0)) = .ok (some (js "0")) ∧
      (postRequest [] (answering 200 []) (js "/post?param=x") (.num (.fin false 0 0))).requests
        = [⟨.POST, js "/post?param=x", [], none⟩]) ∧
    (jsonStringify (.str (js "")) = .ok (some (js "\"\"")) ∧
      (postRequest [] (answering 200 []) (js "/post?param=x") (.str (js ""))).requests
        = [⟨.POST, js "/post?param=x", [], none⟩]) ∧
    (postRequest [] (answering 200 []) (js "/post?param=x") .cyclic).requests = [] := by
  refine ⟨⟨rfl, by decide⟩, ⟨rfl, by decide⟩, ⟨rfl, by decide⟩, by decide⟩

/-- C9, amended: when `data` is omitted or falsy (`undefined`, `null`,
`false`, `0`, `NaN`, `""`), `postRequest` issues one POST to the origin
followed by the endpoint, without body or header. When `data` is truthy,
`JSON.stringify(data)` is evaluated first: if it returns a text, the request
has that text as its body and `Content-Type: application/json` as its only
header; if it returns `undefined` (a function, a symbol), the request has that
header and no body; if it throws (an object that contains itself, a BigInt), no
request is issued and the fault is rethrown. For truthy plain data (trees of
primitives, arrays and plain objects) it always returns a text. -/
theorem postRequest_body (BACKEND_URL : JSString) (fetch : Transport) (endpoint : JSString)
    (data : JSValue) :
    (toBoolean data = false →
      (postRequest BACKEND_URL fetch endpoint data).requests =
        [⟨.POST, BACKEND_URL ++ endpoint, [], none⟩]) ∧
    (toBoolean data = true → ∀ text, jsonStringify data = .ok (some text) →
      (postRequest BACKEND_URL fetch endpoint data).requests =
        [⟨.POST, BACKEND_URL ++ endpoint, [(js "Content-Type", js "application/json")],
          some text⟩]) ∧
    (toBoolean data = true → jsonStringify data = .ok none →
      (postRequest BACKEND_URL fetch endpoint data).requests =
        [⟨.POST, BACKEND_URL ++ endpoint, [(js "Content-Type", js "application/json")],
          none⟩]) ∧
    (toBoolean data = true → ∀ e, jsonStringify data = .error e →
      (postRequest BACKEND_URL fetch endpoint data).requests = [] ∧
      (postRequest BACKEND_URL fetch endpoint data).completion = .error e) ∧
    (toBoolean data = true → isPlain data = true →
      ∃ text, jsonStringify data = .ok (some text)) := by
  refine ⟨?_, ?_, ?_, ?_, ?_⟩
  · intro h
    rw [postRequest_requests, postRequestSent, if_neg (by simp [h])]
    rfl
  · intro h text hj
    rw [postRequest_requests, postRequestSent, if_pos h, hj]
    rfl
  · intro h hj
    rw [postRequest_requests, postRequestSent, if_pos h, hj]
    rfl
  · intro h e hj
    rw [postRequest_of_throw h hj]
    exact ⟨rfl, rfl⟩
  · intro h hp
    obtain ⟨t, ht, hsome⟩ := jsonStringify_of_isPlain data hp
    obtain ⟨text, rfl⟩ := hsome h
    exact ⟨text, ht⟩

/-- C9 amended, at a plain object. -/
theorem postRequest_body_witness :
    (postRequest [] (answering 200 []) (js "/post") (.obj [(js "volume", .bool true)])).requests
      = [⟨.POST, [] ++ js "/post", [(js "Content-Type", js "application/json")],
          some (js "\x7b\"volume\":true\x7d")⟩] :=
  (postRequest_body [] (answering 200 []) (js "/post") (.obj [(js "volume", .bool true)])).2.1
    rfl (js "\x7b\"volume\":true\x7d") rfl

/-- C7: the backend origin is the value of the query parameter `backend` of
the page when it is present and not empty, and the empty string when it is
absent or empty; `getRequest` and `postRequest` request exactly the origin
followed by the endpoint (`postRequest` issues its request unless
`JSON.stringify` throws at a truthy `data`). With `?backend=http://host:1780`
the request for `/get?param=x` goes to `http://host:1780/get?param=x`, without
it to `/get?param=x`. -/
theorem backend_origin (search : JSString) (fetch : Transport) (endpoint : JSString)
    (data : JSValue) :
    (∀ v, URLSearchParams.get (URLSearchParams search) (js "backend") = some v → v ≠ [] →
      backendURL search = v) ∧
    (URLSearchParams.get (URLSearchParams search) (js "backend") = none ∨
      URLSearchParams.get (URLSearchParams search) (js "backend") = some [] →
      backendURL search = []) ∧
    (getRequest (backendURL search) fetch endpoint).requests
      = [⟨.GET, backendURL search ++ endpoint, [], none⟩] ∧
    (∀ request ∈ (postRequest (backendURL search) fetch endpoint data).requests,
      request.method = .POST ∧ request.url = backendURL search ++ endpoint) ∧
    (toBoolean data = false ∨ (∃ body, jsonStringify data = .ok body) →
      ∃ headers body, (postRequest (backendURL search) fetch endpoint data).requests
        = [⟨.POST, backendURL search ++ endpoint, headers, body⟩]) ∧
    backendURL (js "?backend=http://host:1780") = js "http://host:1780" ∧
    (getRequest (backendURL (js "?backend=http://host:1780")) fetch (js "/get?param=x")).requests
      = [⟨.GET, js "http://host:1780/get?param=x", [], none⟩] ∧
    backendURL (js "") = js "" ∧
    (getRequest (backendURL (js "")) fetch (js "/get?param=x")).requests
      = [⟨.GET, js "/get?param=x", [], none⟩] := by
  refine ⟨?_, ?_, getRequest_requests _ _ _, ?_, ?_, by decide, ?_, by decide, ?_⟩
  · intro v hv hne
    simp only [backendURL, getBackendURL, hv, toBoolean]
    cases v with
    | nil => exact absurd rfl hne
    | cons c cs => rfl
  · rintro (h | h)
    · simp only [backendURL, getBackendURL, h]
    · simp only [backendURL, getBackendURL, h]; rfl
  · intro request hr
    rw [postRequest_requests] at hr
    exact postRequestSent_url (Option.mem_toList.mp hr)
  · intro h
    obtain ⟨headers, body, hs⟩ := postRequestSent_of_ok (backendURL search) endpoint data h
    exact ⟨headers, body, by rw [postRequest_requests, hs]; rfl⟩
  · rw [getRequest_requests, show backendURL (js "?backend=http://host:1780")
      = js "http://host:1780" from by decide]
    rfl
  · rw [getRequest_requests, show backendURL (js "") = js "" from by decide]
    rfl

/-- C7, at a page whose query has an empty `backend` parameter. -/
theorem backend_origin_witness : backendURL (js "?backend=&x=1") = [] :=
  (backend_origin (js "?backend=&x=1") (answering 200 []) [] .undefined).2.1
    (Or.inr (by decide))

/-! ### URI encoding and decoding -/

theorem hexValue_hexUpper {d : Nat} (h : d < 16) : hexValue (hexUpper d) = some d := by
  interval_cases d <;> decide

theorem isUnreserved_hexUpper (d : Nat) : isUnreserved (hexUpper d) = true := by
  have h : d % 16 < 16 := Nat.mod_lt _ (by omega)
  have : hexUpper d = hexUpper (d % 16) := by simp [hexUpper]
  rw [this]
  generalize d % 16 = e at h
  interval_cases e <;> decide

theorem uriTokens_cons_lit {c : CodeUnit} (h : c.val ≠ 0x25) (s : JSString) :
    uriTokens (c :: s) = (uriTokens s).map (.lit c :: ·) := by
  match s with
  | [] => simp [uriTokens, h]
  | [d] => simp [uriTokens, h]
  | d :: e :: rest => simp [uriTokens, h]

theorem uriTokens_percentEncodeByte {b : Nat} (h : b < 256) (s : JSString) :
    uriTokens (percentEncodeByte b ++ s) = (uriTokens s).map (.octet b :: ·) := by
  have h1 : b / 16 < 16 := by omega
  have h2 : b % 16 < 16 := by omega
  have h3 : 16 * (b / 16) + b % 16 = b := by omega
  simp only [percentEncodeByte, List.cons_append, List.nil_append, uriTokens]
  rw [if_pos (by decide), hexValue_hexUpper h1, hexValue_hexUpper h2]
  simp only [h3, List.append_eq, List.nil_append]

theorem uriTokens_percentEncode (bs : List Nat) (h : ∀ b ∈ bs, b < 256) (s : JSString) :
    uriTokens (percentEncode bs ++ s) = (uriTokens s).map (bs.map .octet ++ ·) := by
  induction bs with
  | nil => simp [percentEncode]
  | cons b bs ih =>
    have hb : b < 256 := h b (List.mem_cons_self _ _)
    have ih' := ih (fun x hx => h x (List.mem_cons_of_mem _ hx))
    simp only [percentEncode, List.flatMap_cons, List.append_assoc] at ih' ⊢
    rw [uriTokens_percentEncodeByte hb, ih']
    simp [Option.map_map, Function.comp_def]

theorem utf8Encode_lt {cp : Nat} (h : cp < 0x110000) : ∀ b ∈ utf8Encode cp, b < 256 := by
  intro b hb
  simp only [utf8Encode] at hb
  split_ifs at hb <;>
    simp only [List.mem_cons, List.mem_singleton, List.not_mem_nil, or_false] at hb <;> omega

theorem utf8Decode2_encode {cp : Nat} (h1 : 0x80 ≤ cp) (h2 : cp < 0x800) :
    utf8Decode2 (0xC0 + cp / 64) (0x80 + cp % 64) = some cp := by
  have e : (0xC0 + cp / 64 - 0xC0) * 64 + (0x80 + cp % 64 - 0x80) = cp := by omega
  simp only [utf8Decode2, isContinuation, decide_eq_true_eq, e]
  rw [if_pos (by omega)]

theorem utf8Decode3_encode {cp : Nat} (h1 : 0x800 ≤ cp) (h2 : cp < 0x10000)
    (hs : ¬ (0xD800 ≤ cp ∧ cp ≤ 0xDFFF)) :
    utf8Decode3 (0xE0 + cp / 4096) (0x80 + cp / 64 % 64) (0x80 + cp % 64) = some cp := by
  have e : (0xE0 + cp / 4096 - 0xE0) * 4096 + (0x80 + cp / 64 % 64 - 0x80) * 64
      + (0x80 + cp % 64 - 0x80) = cp := by omega
  simp only [utf8Decode3, isContinuation, decide_eq_true_eq, e]
  rw [if_pos (by omega)]

theorem utf8Decode4_encode {cp : Nat} (h1 : 0x10000 ≤ cp) (h2 : cp < 0x110000) :
    utf8Decode4 (0xF0 + cp / 262144) (0x80 + cp / 4096 % 64) (0x80 + cp / 64 % 64)
      (0x80 + cp % 64) = some cp := by
  have e : (0xF0 + cp / 262144 - 0xF0) * 262144 + (0x80 + cp / 4096 % 64 - 0x80) * 4096
      + (0x80 + cp / 64 % 64 - 0x80) * 64 + (0x80 + cp % 64 - 0x80) = cp := by omega
  simp only [utf8Decode4, isContinuation, decide_eq_true_eq, e]
  rw [if_pos (by omega)]

theorem decodeTokensAux_ascii {b : Nat} (h : b < 0x80) (ts : List UriToken) :
    decodeTokensAux [] (.octet b :: ts) = (decodeTokensAux [] ts).map (Fin.ofNat b :: ·) := by
  rw [decodeTokensAux, if_pos rfl, if_pos h]

theorem decodeTokensAux_first {b : Nat} (h1 : 0xC0 ≤ b) (h2 : b < 0xF8) (ts : List UriToken) :
    decodeTokensAux [] (.octet b :: ts) = decodeTokensAux [b] ts := by
  rw [decodeTokensAux, if_pos rfl, if_neg (by omega), if_neg (by omega)]

theorem decodeTokensAux_more {pending : List Nat} {b : Nat} (hp : pending ≠ [])
    (h : (pending ++ [b]).length < sequenceLength (pending.headD 0)) (ts : List UriToken) :
    decodeTokensAux pending (.octet b :: ts) = decodeTokensAux (pending ++ [b]) ts := by
  rw [decodeTokensAux, if_neg hp, if_pos h]

theorem decodeTokensAux_last {pending : List Nat} {b : Nat} (hp : pending ≠ [])
    (h : ¬ (pending ++ [b]).length < sequenceLength (pending.headD 0)) (ts : List UriToken) :
    decodeTokensAux pending (.octet b :: ts) =
      (utf8DecodeOctets (pending ++ [b])).bind fun cp =>
        (decodeTokensAux [] ts).map (utf16EncodeCodePoint cp ++ ·) := by
  rw [decodeTokensAux, if_neg hp, if_neg h]

/-- Decoding the escaped UTF-8 octets of a scalar value gives its UTF-16
encoding. -/
theorem decodeTokensAux_utf8Encode {cp : Nat} (h : cp < 0x110000)
    (hs : ¬ (0xD800 ≤ cp ∧ cp ≤ 0xDFFF)) (ts : List UriToken) :
    decodeTokensAux [] ((utf8Encode cp).map .octet ++ ts)
      = (decodeTokensAux [] ts).map (utf16EncodeCodePoint cp ++ ·) := by
  by_cases c1 : cp < 0x80
  · simp only [utf8Encode, if_pos c1, List.map_cons, List.map_nil, List.cons_append,
      List.nil_append]
    rw [decodeTokensAux_ascii c1, utf16EncodeCodePoint, if_pos (by omega : cp < 0x10000)]
    rfl
  by_cases c2 : cp < 0x800
  · simp only [utf8Encode, if_neg c1, if_pos c2, List.map_cons, List.map_nil, List.cons_append,
      List.nil_append]
    rw [decodeTokensAux_first (by omega) (by omega),
      decodeTokensAux_last (by simp) (by simp only [sequenceLength, List.headD]; rw [if_pos (by omega)]; simp)]
    simp only [List.cons_append, List.nil_append, utf8DecodeOctets]
    rw [utf8Decode2_encode (by omega) c2]
    rfl
  by_cases c3 : cp < 0x10000
  · simp only [utf8Encode, if_neg c1, if_neg c2, if_pos c3, List.map_cons, List.map_nil,
      List.cons_append, List.nil_append]
    have hl : sequenceLength (0xE0 + cp / 4096) = 3 := by
      simp only [sequenceLength]; rw [if_neg (by omega), if_pos (by omega)]
    rw [decodeTokensAux_first (by omega) (by omega),
      decodeTokensAux_more (by simp) (by simp only [List.headD, hl]; simp),
      decodeTokensAux_last (by simp) (by simp only [List.cons_append, List.headD, hl]; simp)]
    simp only [List.cons_append, List.nil_append, utf8DecodeOctets]
    rw [utf8Decode3_encode (by omega) c3 hs]
    rfl
  · simp only [utf8Encode, if_neg c1, if_neg c2, if_neg c3, List.map_cons, List.map_nil,
      List.cons_append, List.nil_append]
    have hl : sequenceLength (0xF0 + cp / 262144) = 4 := by
      simp only [sequenceLength]; rw [if_neg (by omega), if_neg (by omega)]
    rw [decodeTokensAux_first (by omega) (by omega),
      decodeTokensAux_more (by simp) (by simp only [List.headD, hl]; simp),
      decodeTokensAux_more (by simp) (by simp only [List.cons_append, List.headD, hl]; simp),
      decodeTokensAux_last (by simp) (by simp only [List.cons_append, List.headD, hl]; simp)]
    simp only [List.cons_append, List.nil_append, utf8DecodeOctets]
    rw [utf8Decode4_encode (by omega) h]
    rfl

theorem utf16EncodeCodePoint_unit (c : CodeUnit) : utf16EncodeCodePoint c.val = [c] := by
  have h := c.isLt
  simp only [utf16EncodeCodePoint, if_pos h]
  congr 1
  apply Fin.ext
  simp [Fin.ofNat, Nat.mod_eq_of_lt h]

theorem surrogatePair_bounds {c d : CodeUnit} (hc : isLeadSurrogate c = true)
    (hd : isTrailSurrogate d = true) :
    0x10000 ≤ surrogatePair c d ∧ surrogatePair c d < 0x110000 := by
  simp only [isLeadSurrogate, isTrailSurrogate, decide_eq_true_eq] at hc hd
  simp only [surrogatePair]
  omega

theorem utf16EncodeCodePoint_pair {c d : CodeUnit} (hc : isLeadSurrogate c = true)
    (hd : isTrailSurrogate d = true) :
    utf16EncodeCodePoint (surrogatePair c d) = [c, d] := by
  have hb := surrogatePair_bounds hc hd
  simp only [isLeadSurrogate, isTrailSurrogate, decide_eq_true_eq] at hc hd
  have e1 : (Fin.ofNat (0xD800 + (surrogatePair c d - 0x10000) / 0x400) : CodeUnit) = c := by
    apply Fin.ext
    simp only [Fin.ofNat, surrogatePair]
    omega
  have e2 : (Fin.ofNat (0xDC00 + (surrogatePair c d - 0x10000) % 0x400) : CodeUnit) = d := by
    apply Fin.ext
    simp only [Fin.ofNat, surrogatePair]
    omega
  rw [utf16EncodeCodePoint, if_neg (by omega), e1, e2]

theorem scalar_of_not_surrogate {c : CodeUnit} (h1 : ¬ isLeadSurrogate c = true)
    (h2 : ¬ isTrailSurrogate c = true) :
    c.val < 0x110000 ∧ ¬ (0xD800 ≤ c.val ∧ c.val ≤ 0xDFFF) := by
  have h := c.isLt
  simp only [isLeadSurrogate, isTrailSurrogate, decide_eq_true_eq] at h1 h2
  omega

/-- How `encodeURIComponent` builds its result: unreserved characters are
copied, every other scalar value becomes the escapes of its UTF-8 octets. Any
relation between strings and their encodings that is closed under these two
steps holds of every string that can be encoded. -/
theorem encodeURIComponent_cases (P : JSString → JSString → Prop) (hnil : P [] [])
    (hlit : ∀ c s enc, isUnreserved c = true → P s enc → P (c :: s) (c :: enc))
    (hesc : ∀ cp s enc, cp < 0x110000 → ¬ (0xD800 ≤ cp ∧ cp ≤ 0xDFFF) → P s enc →
      P (utf16EncodeCodePoint cp ++ s) (percentEncode (utf8Encode cp) ++ enc)) :
    ∀ s enc, encodeURIComponent s = some enc → P s enc := by
  intro s
  induction s using encodeURIComponent.induct with
  | case1 =>
    intro enc h
    simp only [encodeURIComponent, Option.some.injEq] at h
    subst h; exact hnil
  | case2 c hc =>
    intro enc h
    simp only [encodeURIComponent, hc, if_true, Option.some.injEq] at h
    subst h; exact hlit c [] [] hc hnil
  | case3 c hc hs =>
    intro enc h
    simp only [encodeURIComponent, hc, hs, if_true, if_false, Bool.false_eq_true] at h
    cases h
  | case4 c hc hs =>
    intro enc h
    simp only [encodeURIComponent, hc, hs, if_false, Bool.false_eq_true,
      Option.some.injEq] at h
    subst h
    have hv := scalar_of_not_surrogate (fun h => hs (Or.inl h)) (fun h => hs (Or.inr h))
    have := hesc c.val [] [] hv.1 hv.2 hnil
    rwa [utf16EncodeCodePoint_unit, List.append_nil, List.append_nil] at this
  | case5 c d rest hc ih =>
    intro enc h
    simp only [encodeURIComponent, hc, if_true] at h
    cases he : encodeURIComponent (d :: rest) with
    | none => rw [he] at h; cases h
    | some enc' =>
      rw [he] at h
      simp only [Option.map_some', Option.some.injEq] at h
      subst h
      exact hlit c _ _ hc (ih enc' he)
  | case6 c d rest hc hl ht ih =>
    intro enc h
    simp only [encodeURIComponent, hc, hl, ht, if_true, if_false, Bool.false_eq_true] at h
    cases he : encodeURIComponent rest with
    | none => rw [he] at h; cases h
    | some enc' =>
      rw [he] at h
      simp only [Option.map_some', Option.some.injEq] at h
      subst h
      have hb := surrogatePair_bounds hl ht
      have := hesc (surrogatePair c d) rest enc' hb.2 (by omega) (ih enc' he)
      rwa [utf16EncodeCodePoint_pair hl ht] at this
  | case7 c d rest hc hl ht =>
    intro enc h
    simp only [encodeURIComponent, hc, hl, ht, if_true, if_false, Bool.false_eq_true] at h
    cases h
  | case8 c d rest hc hl ht =>
    intro enc h
    simp only [encodeURIComponent, hc, hl, ht, if_true, if_false, Bool.false_eq_true] at h
    cases h
  | case9 c d rest hc hl ht ih =>
    intro enc h
    simp only [encodeURIComponent, hc, hl, ht, if_false, Bool.false_eq_true] at h
    cases he : encodeURIComponent (d :: rest) with
    | none => rw [he] at h; cases h
    | some enc' =>
      rw [he] at h
      simp only [Option.map_some', Option.some.injEq] at h
      subst h
      have hv := scalar_of_not_surrogate hl ht
      have := hesc c.val (d :: rest) enc' hv.1 hv.2 (ih enc' he)
      rwa [utf16EncodeCodePoint_unit] at this

theorem not_percent_of_isUnreserved {c : CodeUnit} (h : isUnreserved c = true) :
    c.val ≠ 0x25 := by
  simp only [isUnreserved, List.mem_cons, List.mem_singleton, List.not_mem_nil, or_false,
    decide_eq_true_eq] at h
  omega

theorem isAscii_of_isUnreserved {c : CodeUnit} (h : isUnreserved c = true) : c.val < 0x80 := by
  simp only [isUnreserved, List.mem_cons, List.mem_singleton, List.not_mem_nil, or_false,
    decide_eq_true_eq] at h
  omega

/-- The inverse direction: `decodeURIComponent` gives back every string that
`encodeURIComponent` encodes. -/
theorem decodeURIComponent_encodeURIComponent (s enc : JSString)
    (h : encodeURIComponent s = some enc) : decodeURIComponent enc = some s := by
  have key : ∃ ts, uriTokens enc = some ts ∧ decodeTokensAux [] ts = some s := by
    refine encodeURIComponent_cases
      (fun s enc => ∃ ts, uriTokens enc = some ts ∧ decodeTokensAux [] ts = some s)
      ⟨[], rfl, rfl⟩ ?_ ?_ s enc h
    · rintro c s enc hc ⟨ts, h1, h2⟩
      refine ⟨.lit c :: ts, ?_, ?_⟩
      · rw [uriTokens_cons_lit (not_percent_of_isUnreserved hc), h1]; rfl
      · rw [decodeTokensAux, if_pos rfl, h2]; rfl
    · rintro cp s enc hcp hs ⟨ts, h1, h2⟩
      refine ⟨(utf8Encode cp).map .octet ++ ts, ?_, ?_⟩
      · rw [uriTokens_percentEncode _ (utf8Encode_lt hcp), h1]; rfl
      · rw [decodeTokensAux_utf8Encode hcp hs, h2]; rfl
  obtain ⟨ts, h1, h2⟩ := key
  rw [decodeURIComponent, h1]
  exact h2

/-- The result of `encodeURIComponent` consists of unreserved characters and
percent signs only. -/
theorem encodeURIComponent_units (s enc : JSString) (h : encodeURIComponent s = some enc) :
    ∀ c ∈ enc, isUnreserved c = true ∨ c.val = 0x25 := by
  refine encodeURIComponent_cases
    (fun _ enc => ∀ c ∈ enc, isUnreserved c = true ∨ c.val = 0x25) ?_ ?_ ?_ s enc h
  · intro c hc; cases hc
  · intro c s enc hc ih x hx
    rcases List.mem_cons.mp hx with rfl | hx
    · exact Or.inl hc
    · exact ih x hx
  · intro cp s enc _ _ ih x hx
    rcases List.mem_append.mp hx with hx | hx
    · simp only [percentEncode, List.mem_flatMap, percentEncodeByte, List.mem_cons,
        List.mem_singleton, List.not_mem_nil, or_false] at hx
      obtain ⟨b, _, rfl | rfl | rfl⟩ := hx
      · exact Or.inr rfl
      · exact Or.inl (isUnreserved_hexUpper _)
      · exact Or.inl (isUnreserved_hexUpper _)
    · exact ih x hx

theorem not_surrogate_of_lt {c : CodeUnit} (h : c.val < 0xD800) :
    isLeadSurrogate c = false ∧ isTrailSurrogate c = false := by
  simp only [isLeadSurrogate, isTrailSurrogate, decide_eq_false_iff_not]
  omega

/-- The built-in `encodeURIComponent` throws exactly at the strings that are not
well formed (that have an unpaired surrogate). -/
theorem encodeURIComponent_isSome (s : JSString) :
    (encodeURIComponent s).isSome = isWellFormed s := by
  induction s using encodeURIComponent.induct with
  | case1 => rfl
  | case2 c hc =>
    have hn := not_surrogate_of_lt (c := c) (by have := isAscii_of_isUnreserved hc; omega)
    simp [encodeURIComponent, isWellFormed, hc, hn.1, hn.2]
  | case3 c hc hs =>
    rcases hs with hs | hs <;> simp [encodeURIComponent, isWellFormed, hc, hs]
  | case4 c hc hs =>
    simp only [not_or, Bool.not_eq_true] at hs
    simp [encodeURIComponent, isWellFormed, hc, hs.1, hs.2]
  | case5 c d rest hc ih =>
    have hn := not_surrogate_of_lt (c := c) (by have := isAscii_of_isUnreserved hc; omega)
    simp only [encodeURIComponent, isWellFormed, hc, hn.1, hn.2, if_true, Option.isSome_map',
      ih, Bool.false_eq_true, if_false, Bool.not_false, Bool.true_and]
  | case6 c d rest hc hl ht ih =>
    simp only [encodeURIComponent, isWellFormed, hc, hl, ht, if_true, if_false,
      Bool.false_eq_true, Option.isSome_map', ih, Bool.true_and]
  | case7 c d rest hc hl ht =>
    simp [encodeURIComponent, isWellFormed, hc, hl, ht]
  | case8 c d rest hc hl ht =>
    simp [encodeURIComponent, isWellFormed, hc, hl, ht]
  | case9 c d rest hc hl ht ih =>
    simp only [Bool.not_eq_true] at hl ht
    simp only [encodeURIComponent, isWellFormed, hc, hl, ht, if_false, Bool.false_eq_true,
      Option.isSome_map', ih, Bool.not_false, Bool.true_and]

theorem encodeURIComponent_of_isWellFormed {s : JSString} (h : isWellFormed s = true) :
    ∃ enc, encodeURIComponent s = some enc := by
  have := encodeURIComponent_isSome s
  rw [h] at this
  exact Option.isSome_iff_exists.mp this

theorem encodeURIComponent_of_not_isWellFormed {s : JSString} (h : isWellFormed s = false) :
    encodeURIComponent s = none := by
  have := encodeURIComponent_isSome s
  rw [h] at this
  cases he : encodeURIComponent s with
  | none => rfl
  | some enc => rw [he] at this; cases this

/-- A string of code units below 0xD800 is well formed. -/
theorem isWellFormed_of_lt (s : JSString) (h : ∀ c ∈ s, c.val < 0xD800) :
    isWellFormed s = true := by
  induction s using isWellFormed.induct with
  | case1 => rfl
  | case2 c =>
    have hn := not_surrogate_of_lt (h c (List.mem_cons_self _ _))
    simp [isWellFormed, hn.1, hn.2]
  | case3 c d rest hl ih =>
    have hn := not_surrogate_of_lt (h c (List.mem_cons_self _ _))
    rw [hn.1] at hl; cases hl
  | case4 c d rest hl ih =>
    have hn := not_surrogate_of_lt (h c (List.mem_cons_self _ _))
    simp only [isWellFormed, hn.1, hn.2, Bool.false_eq_true, if_false, Bool.not_false,
      Bool.true_and]
    exact ih (fun x hx => h x (List.mem_cons_of_mem _ hx))

theorem isAscii_append {a b : JSString} (ha : IsAscii a) (hb : IsAscii b) : IsAscii (a ++ b) := by
  intro c hc
  rcases List.mem_append.mp hc with h | h
  · exact ha c h
  · exact hb c h

theorem isAscii_of_all {s : JSString} (h : s.all (fun c => decide (c.val < 0x80)) = true) :
    IsAscii s := by
  intro c hc
  simpa using List.all_eq_true.mp h c hc

theorem isAscii_take {a : JSString} (n : Nat) (ha : IsAscii a) : IsAscii (a.take n) :=
  fun c hc => ha c (List.mem_of_mem_take hc)

theorem isAscii_drop {a : JSString} (n : Nat) (ha : IsAscii a) : IsAscii (a.drop n) :=
  fun c hc => ha c (List.mem_of_mem_drop hc)

theorem isAscii_replicate_zero (n : Nat) : IsAscii (List.replicate n (digitUnit 0)) := by
  intro c hc
  rw [(List.mem_replicate.mp hc).2]
  exact (by decide : (digitUnit 0).val < 0x80)

theorem isAscii_natToDecimal (n : Nat) : IsAscii (natToDecimal n) := by
  intro c hc
  have h := List.all_eq_true.mp (natToDecimal_spec n).2.1 c hc
  simp only [isDigit, decide_eq_true_eq] at h
  omega

theorem isAscii_layoutDecimal {ds : JSString} (h : IsAscii ds) (n : Int) :
    IsAscii (layoutDecimal ds n) := by
  have hdot : IsAscii (js ".") := isAscii_of_all (by decide)
  have hzero : IsAscii (js "0.") := isAscii_of_all (by decide)
  have he : IsAscii (js "e") := isAscii_of_all (by decide)
  have hminus : IsAscii (js "-") := isAscii_of_all (by decide)
  have hplus : IsAscii (js "+") := isAscii_of_all (by decide)
  have hsign : IsAscii (if n - 1 < 0 then js "-" else js "+") := by
    split_ifs
    · exact hminus
    · exact hplus
  simp only [layoutDecimal]
  by_cases c1 : -5 ≤ n ∧ n ≤ 21
  · rw [if_pos c1]
    split_ifs
    · exact isAscii_append h (isAscii_replicate_zero _)
    · exact isAscii_append (isAscii_append (isAscii_take _ h) hdot) (isAscii_drop _ h)
    · exact isAscii_append (isAscii_append hzero (isAscii_replicate_zero _)) h
  rw [if_neg c1]
  by_cases c2 : ds.length = 1
  · rw [if_pos c2]
    exact isAscii_append (isAscii_append (isAscii_append h he) hsign) (isAscii_natToDecimal _)
  · rw [if_neg c2]
    exact isAscii_append (isAscii_append (isAscii_append (isAscii_append
        (isAscii_append (isAscii_take _ h) hdot) (isAscii_drop _ h)) he) hsign)
        (isAscii_natToDecimal _)

/-- The string form of every Number is ASCII. -/
theorem isAscii_numberToString (x : JSNumber) : IsAscii (numberToString x) := by
  cases x with
  | nan => exact isAscii_of_all (by decide)
  | inf neg => cases neg <;> exact isAscii_of_all (by decide)
  | fin neg expo frac =>
    simp only [numberToString]
    by_cases hz : expo.val = 0 ∧ frac.val = 0
    · rw [if_pos hz]
      exact isAscii_of_all (by decide)
    · rw [if_neg hz]
      refine isAscii_append ?_ (isAscii_layoutDecimal (isAscii_natToDecimal _) _)
      cases neg
      · intro c hc; cases hc
      · exact isAscii_of_all (by decide)

theorem isWellFormed_of_isAscii {s : JSString} (h : IsAscii s) : isWellFormed s = true :=
  isWellFormed_of_lt s (fun c hc => by have := h c hc; omega)

/-- The string form of every Number is well formed, so `encodeURIComponent`
never throws at a Number. -/
theorem isWellFormed_numberToString (x : JSNumber) : isWellFormed (numberToString x) = true :=
  isWellFormed_of_isAscii (isAscii_numberToString x)

/-- What `setParameter` does once the endpoint is built. -/
theorem setParameter_of_endpoint {BACKEND_URL : JSString} {fetch : Transport}
    {paramKey : JSString} {value : ParamValue} {endpoint : JSString}
    (h : setParameterEndpoint paramKey value = some endpoint) :
    (setParameter BACKEND_URL fetch paramKey value).requests
      = [⟨.POST, BACKEND_URL ++ endpoint, [], none⟩] ∧
    (setParameter BACKEND_URL fetch paramKey value).completion
      = .ok (succeeded (fetch ⟨.POST, BACKEND_URL ++ endpoint, [], none⟩)) := by
  have hsent : postRequestSent BACKEND_URL endpoint .undefined
      = some ⟨.POST, BACKEND_URL ++ endpoint, [], none⟩ := rfl
  simp only [setParameter, h]
  cases hf : fetch ⟨.POST, BACKEND_URL ++ endpoint, [], none⟩ with
  | error e =>
    rw [postRequest_rejected hsent hf]
    simp only [succeeded, and_self]
  | ok r =>
    cases hok : r.ok with
    | false =>
      rw [postRequest_failed hsent hf hok]
      simp only [succeeded, hok, and_self]
    | true =>
      rw [postRequest_succeeded hsent hf hok]
      simp only [succeeded, hok, and_self]

/-- What `setParameter` does when `encodeURIComponent` throws. -/
theorem setParameter_of_throw {BACKEND_URL : JSString} {fetch : Transport}
    {paramKey : JSString} {value : ParamValue}
    (h : setParameterEndpoint paramKey value = none) :
    (setParameter BACKEND_URL fetch paramKey value).requests = [] ∧
    (setParameter BACKEND_URL fetch paramKey value).completion = .ok false := by
  simp only [setParameter, h, and_self]

/-- C5 as stated fails for a string value with an unpaired surrogate: with a
transport that answers every request with status 200, `setParameter` issues no
request and returns `false`. -/
theorem setParameter_unpaired_surrogate_counterexample :
    encodeURIComponent (ParamValue.str [0xD800]).toJSString = none ∧
    (setParameter [] (answering 200 []) (js "hostname") (.str [0xD800])).requests = [] ∧
    (setParameter [] (answering 200 []) (js "hostname") (.str [0xD800])).completion
      = .ok false := by
  refine ⟨by decide, ?_⟩
  exact setParameter_of_throw (by decide)

/-- C5, amended: when the string form of the value is well formed (no unpaired
surrogate; every Number is), `setParameter` issues exactly one POST, without
headers or body, to the backend origin followed by `/post?param=`, the key,
`&value=` and the URL-encoded value, and returns `true` when the response
status is a success and `false` when it is not or the transport rejects; when
it is not well formed no request is issued and the result is `false`.
`setParameter('snapserver_port', 1704)` posts to
`/post?param=snapserver_port&value=1704`. -/
theorem setParameter_posts (BACKEND_URL : JSString) (fetch : Transport) (paramKey : JSString)
    (value : ParamValue) :
    (isWellFormed value.toJSString = true →
      ∃ encoded, encodeURIComponent value.toJSString = some encoded ∧
        (setParameter BACKEND_URL fetch paramKey value).requests
          = [⟨.POST, BACKEND_URL ++ (js "/post?param=" ++ paramKey ++ js "&value=" ++ encoded),
              [], none⟩] ∧
        (setParameter BACKEND_URL fetch paramKey value).completion
          = .ok (succeeded (fetch ⟨.POST,
              BACKEND_URL ++ (js "/post?param=" ++ paramKey ++ js "&value=" ++ encoded),
              [], none⟩))) ∧
    (isWellFormed value.toJSString = false →
      (setParameter BACKEND_URL fetch paramKey value).requests = [] ∧
      (setParameter BACKEND_URL fetch paramKey value).completion = .ok false) ∧
    (∀ x, isWellFormed (ParamValue.num x).toJSString = true) ∧
    (setParameter BACKEND_URL fetch (js "snapserver_port")
        (.num (JSNumber.ofNat 1704))).requests
      = [⟨.POST, BACKEND_URL ++ js "/post?param=snapserver_port&value=1704", [], none⟩] := by
  refine ⟨?_, ?_, fun x => isWellFormed_numberToString x, ?_⟩
  · intro h
    obtain ⟨encoded, he⟩ := encodeURIComponent_of_isWellFormed h
    exact ⟨encoded, he, setParameter_of_endpoint (by rw [setParameterEndpoint, he]; rfl)⟩
  · intro h
    exact setParameter_of_throw
      (by rw [setParameterEndpoint, encodeURIComponent_of_not_isWellFormed h]; rfl)
  · have e : JSNumber.ofNat 1704 = .fin false 1033 2990671627550720 := by decide
    have h : setParameterEndpoint (js "snapserver_port") (.num (JSNumber.ofNat 1704))
        = some (js "/post?param=snapserver_port&value=1704") := by
      rw [e]; decide
    exact (setParameter_of_endpoint h).1

/-- C5 amended, at the string value `"10.0.0.2"` and a transport answering
with status 200. -/
theorem setParameter_posts_witness :
    ∃ encoded, encodeURIComponent (ParamValue.str (js "10.0.0.2")).toJSString = some encoded ∧
      (setParameter [] (answering 200 []) (js "snapserver_host")
          (.str (js "10.0.0.2"))).requests
        = [⟨.POST, [] ++ (js "/post?param=" ++ js "snapserver_host" ++ js "&value=" ++ encoded),
            [], none⟩] ∧
      (setParameter [] (answering 200 []) (js "snapserver_host")
          (.str (js "10.0.0.2"))).completion
        = .ok (succeeded (answering 200 [] ⟨.POST,
            [] ++ (js "/post?param=" ++ js "snapserver_host" ++ js "&value=" ++ encoded),
            [], none⟩)) :=
  (setParameter_posts [] (answering 200 []) (js "snapserver_host") (.str (js "10.0.0.2"))).1
    (by decide)

/-! ### Parsing the query string -/

theorem hexValueByte_hexUpper {d : Nat} (h : d < 16) :
    hexValueByte (hexUpper d).val = some d := by
  interval_cases d <;> decide

theorem percentDecode_cons_ne {b : Nat} (h : b ≠ 0x25) (t : List Nat) :
    percentDecode (b :: t) = b :: percentDecode t := by
  match t with
  | [] => simp [percentDecode]
  | [c] => simp [percentDecode]
  | c :: d :: rest => simp [percentDecode, h]

theorem percentDecode_escape {b : Nat} (h : b < 256) (t : List Nat) :
    percentDecode (0x25 :: (hexUpper (b / 16)).val :: (hexUpper (b % 16)).val :: t)
      = b :: percentDecode t := by
  have h1 : b / 16 < 16 := by omega
  have h2 : b % 16 < 16 := by omega
  have h3 : 16 * (b / 16) + b % 16 = b := by omega
  rw [percentDecode, if_pos rfl, hexValueByte_hexUpper h1, hexValueByte_hexUpper h2]
  simp only [h3]

theorem plusToSpace_hexUpper (d : Nat) : plusToSpace (hexUpper d).val = (hexUpper d).val := by
  have h : d % 16 < 16 := Nat.mod_lt _ (by omega)
  have : hexUpper d = hexUpper (d % 16) := by simp [hexUpper]
  rw [this]
  generalize d % 16 = e at h
  interval_cases e <;> decide

theorem percentDecode_percentEncode (bs : List Nat) (h : ∀ b ∈ bs, b < 256) (t : JSString) :
    percentDecode (((percentEncode bs ++ t).map Fin.val).map plusToSpace)
      = bs ++ percentDecode ((t.map Fin.val).map plusToSpace) := by
  induction bs with
  | nil => rfl
  | cons b bs ih =>
    have hb : b < 256 := h b (List.mem_cons_self _ _)
    have ih' := ih (fun x hx => h x (List.mem_cons_of_mem _ hx))
    simp only [percentEncode, List.flatMap_cons, percentEncodeByte, List.cons_append,
      List.nil_append, List.map_cons, plusToSpace_hexUpper] at ih' ⊢
    rw [show plusToSpace (Fin.val (0x25 : CodeUnit)) = 0x25 from by decide,
      percentDecode_escape hb, ih']

theorem utf8Encode_ascii {cp : Nat} (h : cp < 0x80) : utf8Encode cp = [cp] := by
  rw [utf8Encode, if_pos h]

theorem utf8DecodeLossyAux_start {st : Utf8State} (h : st.needed = 0) (b : Nat)
    (t : List Nat) :
    utf8DecodeLossyAux st (b :: t) = (utf8Start b).1 ++ utf8DecodeLossyAux (utf8Start b).2 t := by
  rw [utf8DecodeLossyAux, if_pos h]

theorem utf8DecodeLossyAux_last {st : Utf8State} {b : Nat} (h : st.needed = 1)
    (h1 : st.lower ≤ b) (h2 : b ≤ st.upper) (t : List Nat) :
    utf8DecodeLossyAux st (b :: t)
      = (st.codePoint * 64 + (b - 0x80)) :: utf8DecodeLossyAux .initial t := by
  rw [utf8DecodeLossyAux, if_neg (by omega), if_neg (by omega), if_pos h]

theorem utf8DecodeLossyAux_more {st : Utf8State} {b : Nat} (h : 1 < st.needed)
    (h1 : st.lower ≤ b) (h2 : b ≤ st.upper) (t : List Nat) :
    utf8DecodeLossyAux st (b :: t)
      = utf8DecodeLossyAux ⟨st.codePoint * 64 + (b - 0x80), st.needed - 1, 0x80, 0xBF⟩ t := by
  rw [utf8DecodeLossyAux, if_neg (by omega), if_neg (by omega), if_neg (by omega)]

/-- The UTF-8 decoder reads the encoding of a scalar value back as that
value. -/
theorem utf8DecodeLossyAux_utf8Encode {cp : Nat} (h : cp < 0x110000)
    (hs : ¬ (0xD800 ≤ cp ∧ cp ≤ 0xDFFF)) (t : List Nat) :
    utf8DecodeLossyAux .initial (utf8Encode cp ++ t)
      = cp :: utf8DecodeLossyAux .initial t := by
  by_cases c1 : cp < 0x80
  · simp only [utf8Encode, if_pos c1, List.cons_append, List.nil_append]
    rw [utf8DecodeLossyAux_start rfl, utf8Start, if_pos c1]
    rfl
  by_cases c2 : cp < 0x800
  · simp only [utf8Encode, if_neg c1, if_pos c2, List.cons_append, List.nil_append]
    rw [utf8DecodeLossyAux_start rfl, utf8Start, if_neg (by omega), if_pos (by omega)]
    simp only [List.nil_append]
    rw [utf8DecodeLossyAux_last rfl (by simp only []; omega) (by simp only []; omega)]
    refine congrArg₂ List.cons ?_ rfl
    simp only []
    omega
  by_cases c3 : cp < 0x10000
  · simp only [utf8Encode, if_neg c1, if_neg c2, if_pos c3, List.cons_append, List.nil_append]
    rw [utf8DecodeLossyAux_start rfl, utf8Start, if_neg (by omega), if_neg (by omega),
      if_pos (by omega)]
    simp only [List.nil_append]
    rw [utf8DecodeLossyAux_more (by simp only []; omega)
      (by simp only []; split_ifs <;> omega) (by simp only []; split_ifs <;> omega)]
    rw [utf8DecodeLossyAux_last rfl (by simp only []; omega) (by simp only []; omega)]
    refine congrArg₂ List.cons ?_ rfl
    simp only []
    omega
  · simp only [utf8Encode, if_neg c1, if_neg c2, if_neg c3, List.cons_append, List.nil_append]
    rw [utf8DecodeLossyAux_start rfl, utf8Start, if_neg (by omega), if_neg (by omega),
      if_neg (by omega), if_pos (by omega)]
    simp only [List.nil_append]
    rw [utf8DecodeLossyAux_more (by simp only []; omega)
      (by simp only []; split_ifs <;> omega) (by simp only []; split_ifs <;> omega)]
    rw [utf8DecodeLossyAux_more (by simp only []; omega) (by simp only []; omega)
      (by simp only []; omega)]
    rw [utf8DecodeLossyAux_last rfl (by simp only []; omega) (by simp only []; omega)]
    refine congrArg₂ List.cons ?_ rfl
    simp only []
    omega

theorem utf8DecodeLossy_flatMap (cps : List Nat)
    (h : ∀ cp ∈ cps, cp < 0x110000 ∧ ¬ (0xD800 ≤ cp ∧ cp ≤ 0xDFFF)) :
    utf8DecodeLossy (cps.flatMap utf8Encode) = cps := by
  induction cps with
  | nil => rfl
  | cons cp cps ih =>
    have hc := h cp (List.mem_cons_self _ _)
    have ih' := ih (fun x hx => h x (List.mem_cons_of_mem _ hx))
    simp only [utf8DecodeLossy, List.flatMap_cons] at ih' ⊢
    rw [utf8DecodeLossyAux_utf8Encode hc.1 hc.2, ih']

theorem plusToSpace_of_isUnreserved {c : CodeUnit} (h : isUnreserved c = true) :
    plusToSpace c.val = c.val := by
  simp only [isUnreserved, List.mem_cons, List.mem_singleton, List.not_mem_nil, or_false,
    decide_eq_true_eq] at h
  rw [plusToSpace, if_neg (by omega)]

/-- The urlencoded parser decodes what `encodeURIComponent` produced back to
the original string. -/
theorem formDecode_encodeURIComponent (s enc : JSString)
    (h : encodeURIComponent s = some enc) : formDecode (enc.map Fin.val) = s := by
  have key : ∃ cps : List Nat, percentDecode ((enc.map Fin.val).map plusToSpace) = cps.flatMap utf8Encode
      ∧ (∀ cp ∈ cps, cp < 0x110000 ∧ ¬ (0xD800 ≤ cp ∧ cp ≤ 0xDFFF))
      ∧ cps.flatMap utf16EncodeCodePoint = s := by
    refine encodeURIComponent_cases
      (fun s enc => ∃ cps : List Nat,
        percentDecode ((enc.map Fin.val).map plusToSpace) = cps.flatMap utf8Encode
        ∧ (∀ cp ∈ cps, cp < 0x110000 ∧ ¬ (0xD800 ≤ cp ∧ cp ≤ 0xDFFF))
        ∧ cps.flatMap utf16EncodeCodePoint = s)
      ⟨[], rfl, fun _ hcp => absurd hcp (List.not_mem_nil _), rfl⟩ ?_ ?_ s enc h
    · rintro c s enc hc ⟨cps, h1, h2, h3⟩
      have ha := isAscii_of_isUnreserved hc
      refine ⟨c.val :: cps, ?_, ?_, ?_⟩
      · simp only [List.map_cons, plusToSpace_of_isUnreserved hc, List.flatMap_cons,
          utf8Encode_ascii ha, List.cons_append, List.nil_append]
        rw [percentDecode_cons_ne (not_percent_of_isUnreserved hc), h1]
      · intro cp hcp
        rcases List.mem_cons.mp hcp with rfl | hcp
        · omega
        · exact h2 cp hcp
      · simp only [List.flatMap_cons, utf16EncodeCodePoint_unit, h3, List.cons_append,
          List.nil_append]
    · rintro cp s enc hcp hs ⟨cps, h1, h2, h3⟩
      refine ⟨cp :: cps, ?_, ?_, ?_⟩
      · rw [percentDecode_percentEncode _ (utf8Encode_lt hcp), h1]
        rfl
      · intro x hx
        rcases List.mem_cons.mp hx with rfl | hx
        · exact ⟨hcp, hs⟩
        · exact h2 x hx
      · simp only [List.flatMap_cons, h3]
  obtain ⟨cps, h1, h2, h3⟩ := key
  rw [formDecode, h1, utf8DecodeLossy_flatMap cps h2, h3]

/-- A string of unreserved characters is its own encoding. -/
theorem encodeURIComponent_of_unreserved (s : JSString)
    (h : ∀ c ∈ s, isUnreserved c = true) : encodeURIComponent s = some s := by
  induction s using encodeURIComponent.induct with
  | case1 => rfl
  | case2 c hc => simp [encodeURIComponent, hc]
  | case3 c hc hs => exact absurd (h c (List.mem_cons_self _ _)) hc
  | case4 c hc hs => exact absurd (h c (List.mem_cons_self _ _)) hc
  | case5 c d rest hc ih =>
    simp only [encodeURIComponent, hc, if_true,
      ih (fun x hx => h x (List.mem_cons_of_mem _ hx)), Option.map_some']
  | case6 c d rest hc hl ht ih => exact absurd (h c (List.mem_cons_self _ _)) hc
  | case7 c d rest hc hl ht => exact absurd (h c (List.mem_cons_self _ _)) hc
  | case8 c d rest hc hl ht => exact absurd (h c (List.mem_cons_self _ _)) hc
  | case9 c d rest hc hl ht ih => exact absurd (h c (List.mem_cons_self _ _)) hc

theorem splitOn_of_not_mem {sep : Nat} (a : List Nat) (h : ∀ b ∈ a, b ≠ sep) :
    splitOn sep a = [a] := by
  induction a with
  | nil => rfl
  | cons b a ih =>
    rw [splitOn, if_neg (h b (List.mem_cons_self _ _)),
      ih (fun x hx => h x (List.mem_cons_of_mem _ hx))]

theorem splitOn_append {sep : Nat} (a rest : List Nat) (h : ∀ b ∈ a, b ≠ sep) :
    splitOn sep (a ++ sep :: rest) = a :: splitOn sep rest := by
  induction a with
  | nil => simp [splitOn]
  | cons b a ih =>
    rw [List.cons_append, splitOn, if_neg (h b (List.mem_cons_self _ _)),
      ih (fun x hx => h x (List.mem_cons_of_mem _ hx))]

theorem takeWhile_append_stop {α : Type} {p : α → Bool} (a : List α) (x : α) (rest : List α)
    (h : ∀ b ∈ a, p b = true) (hx : p x = false) :
    (a ++ x :: rest).takeWhile p = a ∧ (a ++ x :: rest).dropWhile p = x :: rest := by
  induction a with
  | nil => simp [List.takeWhile, List.dropWhile, hx]
  | cons b a ih =>
    have hb := h b (List.mem_cons_self _ _)
    have ih' := ih (fun y hy => h y (List.mem_cons_of_mem _ hy))
    simp only [List.cons_append, List.takeWhile, List.dropWhile, hb]
    exact ⟨congrArg _ ih'.1, ih'.2⟩

theorem toScalarValues_of_isAscii (s : JSString) (h : IsAscii s) :
    toScalarValues s = s.map Fin.val := by
  induction s using toScalarValues.induct with
  | case1 => rfl
  | case2 c =>
    have hn := not_surrogate_of_lt (c := c) (by have := h c (List.mem_cons_self _ _); omega)
    simp [toScalarValues, scalarOfUnit, hn.1, hn.2]
  | case3 c d rest hp ih =>
    have hn := not_surrogate_of_lt (c := c) (by have := h c (List.mem_cons_self _ _); omega)
    rw [hn.1] at hp; simp at hp
  | case4 c d rest hp ih =>
    have hn := not_surrogate_of_lt (c := c) (by have := h c (List.mem_cons_self _ _); omega)
    rw [toScalarValues, if_neg hp, ih (fun x hx => h x (List.mem_cons_of_mem _ hx))]
    simp [scalarOfUnit, hn.1, hn.2]

theorem utf8EncodeString_of_isAscii (s : JSString) (h : IsAscii s) :
    utf8EncodeString s = s.map Fin.val := by
  rw [utf8EncodeString, toScalarValues_of_isAscii s h]
  induction s with
  | nil => rfl
  | cons c s ih =>
    have hc := h c (List.mem_cons_self _ _)
    simp only [List.map_cons, List.flatMap_cons, utf8Encode_ascii hc, List.cons_append,
      List.nil_append, ih (fun x hx => h x (List.mem_cons_of_mem _ hx))]

theorem delimiter_free_of_isUnreserved {c : CodeUnit}
    (h : isUnreserved c = true ∨ c.val = 0x25) :
    isQueryDelimiter c = false ∧ c.val < 0x80 := by
  simp only [isUnreserved, isQueryDelimiter, List.mem_cons, List.mem_singleton,
    List.not_mem_nil, or_false, decide_eq_true_eq, decide_eq_false_iff_not] at h ⊢
  omega

theorem not_delimiter_val {c : CodeUnit} (h : isQueryDelimiter c = false) :
    c.val ≠ 0x26 ∧ c.val ≠ 0x3D ∧ c.val ≠ 0x23 ∧ c.val ≠ 0x3F ∧ c.val ≠ 0x2B ∧ c.val ≠ 0x20 := by
  simp only [isQueryDelimiter, List.mem_cons, List.mem_singleton, List.not_mem_nil, or_false,
    decide_eq_false_iff_not] at h
  omega

/-- The urlencoded parser on an input of two pieces `name=value`. -/
theorem parseUrlencoded_two (n1 v1 n2 v2 : List Nat)
    (hn1 : ∀ b ∈ n1, b ≠ 0x26 ∧ b ≠ 0x3D) (hv1 : ∀ b ∈ v1, b ≠ 0x26)
    (hn2 : ∀ b ∈ n2, b ≠ 0x26 ∧ b ≠ 0x3D) (hv2 : ∀ b ∈ v2, b ≠ 0x26) :
    parseUrlencoded (n1 ++ 0x3D :: (v1 ++ 0x26 :: (n2 ++ 0x3D :: v2)))
      = [(formDecode n1, formDecode v1), (formDecode n2, formDecode v2)] := by
  have e : n1 ++ 0x3D :: (v1 ++ 0x26 :: (n2 ++ 0x3D :: v2))
      = (n1 ++ 0x3D :: v1) ++ 0x26 :: (n2 ++ 0x3D :: v2) := by
    simp only [List.append_assoc, List.cons_append]
  have h1 : ∀ b ∈ n1 ++ 0x3D :: v1, b ≠ 0x26 := by
    intro b hb
    rcases List.mem_append.mp hb with hb | hb
    · exact (hn1 b hb).1
    · rcases List.mem_cons.mp hb with rfl | hb
      · decide
      · exact hv1 b hb
  have h2 : ∀ b ∈ n2 ++ 0x3D :: v2, b ≠ 0x26 := by
    intro b hb
    rcases List.mem_append.mp hb with hb | hb
    · exact (hn2 b hb).1
    · rcases List.mem_cons.mp hb with rfl | hb
      · decide
      · exact hv2 b hb
  have t1 := takeWhile_append_stop (p := fun b => decide (b ≠ 0x3D)) n1 0x3D v1
    (fun b hb => by simpa using (hn1 b hb).2) (by decide)
  have t2 := takeWhile_append_stop (p := fun b => decide (b ≠ 0x3D)) n2 0x3D v2
    (fun b hb => by simpa using (hn2 b hb).2) (by decide)
  rw [parseUrlencoded, e, splitOn_append _ _ h1, splitOn_of_not_mem _ h2]
  simp only [List.filterMap_cons, List.filterMap_nil]
  rw [if_neg (by simp), if_neg (by simp), t1.1, t1.2, t2.1, t2.2]
  rfl

/-! ### The query of the request -/

theorem toScalarValues_cons {c : CodeUnit} (h : isLeadSurrogate c = false) (s : JSString) :
    toScalarValues (c :: s) = scalarOfUnit c :: toScalarValues s := by
  cases s with
  | nil => rfl
  | cons d rest => rw [toScalarValues, if_neg (by simp [h])]

theorem toScalarValues_cons_cons {c d : CodeUnit} {rest : JSString}
    (h : ¬ (isLeadSurrogate c = true ∧ isTrailSurrogate d = true)) :
    toScalarValues (c :: d :: rest) = scalarOfUnit c :: toScalarValues (d :: rest) := by
  rw [toScalarValues, if_neg h]

theorem toScalarValues_append (a b : JSString)
    (hb : ∀ d, b.head? = some d → isTrailSurrogate d = false) :
    toScalarValues (a ++ b) = toScalarValues a ++ toScalarValues b := by
  induction a using toScalarValues.induct with
  | case1 => rfl
  | case2 c =>
    cases b with
    | nil => rfl
    | cons d rest =>
      have hd := hb d rfl
      have hp : ¬ (isLeadSurrogate c = true ∧ isTrailSurrogate d = true) := by simp [hd]
      exact toScalarValues_cons_cons hp
  | case3 c d rest hp ih =>
    simp only [List.cons_append]
    rw [toScalarValues, if_pos hp, ih, toScalarValues, if_pos hp]
    rfl
  | case4 c d rest hp ih =>
    simp only [List.cons_append] at ih ⊢
    rw [toScalarValues, if_neg hp, ih, toScalarValues, if_neg hp]
    rfl

theorem utf8EncodeString_append (a b : JSString)
    (hb : ∀ d, b.head? = some d → isTrailSurrogate d = false) :
    utf8EncodeString (a ++ b) = utf8EncodeString a ++ utf8EncodeString b := by
  simp only [utf8EncodeString, toScalarValues_append a b hb, List.flatMap_append]

theorem utf8EncodeString_append_ascii (a b : JSString) (ha : IsAscii a) :
    utf8EncodeString (a ++ b) = a.map Fin.val ++ utf8EncodeString b := by
  induction a with
  | nil => rfl
  | cons c a ih =>
    have hc := ha c (List.mem_cons_self _ _)
    have hn := not_surrogate_of_lt (c := c) (by omega)
    have ih' := ih (fun x hx => ha x (List.mem_cons_of_mem _ hx))
    simp only [utf8EncodeString] at ih' ⊢
    rw [List.cons_append, toScalarValues_cons hn.1, List.flatMap_cons, ih']
    simp only [scalarOfUnit, hn.1, hn.2, Bool.false_eq_true, or_self, if_false,
      utf8Encode_ascii hc, List.map_cons, List.cons_append, List.nil_append]

/-- An ASCII octet in the UTF-8 encoding of a scalar value is that value. -/
theorem eq_of_mem_utf8Encode {cp b : Nat} (hb : b ∈ utf8Encode cp) (h : b < 0x80) : cp = b := by
  by_cases c1 : cp < 0x80
  · rw [utf8Encode, if_pos c1] at hb
    simp only [List.mem_singleton] at hb
    omega
  by_cases c2 : cp < 0x800
  · rw [utf8Encode, if_neg c1, if_pos c2] at hb
    simp only [List.mem_cons, List.mem_singleton, List.not_mem_nil, or_false] at hb
    omega
  by_cases c3 : cp < 0x10000
  · rw [utf8Encode, if_neg c1, if_neg c2, if_pos c3] at hb
    simp only [List.mem_cons, List.mem_singleton, List.not_mem_nil, or_false] at hb
    omega
  · rw [utf8Encode, if_neg c1, if_neg c2, if_neg c3] at hb
    simp only [List.mem_cons, List.mem_singleton, List.not_mem_nil, or_false] at hb
    omega

theorem mem_of_mem_toScalarValues (s : JSString) :
    ∀ x ∈ toScalarValues s, x < 0x80 → ∃ c ∈ s, c.val = x := by
  induction s using toScalarValues.induct with
  | case1 => intro x hx; cases hx
  | case2 c =>
    intro x hx hlt
    simp only [toScalarValues, List.mem_singleton] at hx
    subst hx
    simp only [scalarOfUnit] at hlt ⊢
    split_ifs at hlt ⊢
    · omega
    · exact ⟨c, List.mem_cons_self _ _, rfl⟩
  | case3 c d rest hp ih =>
    intro x hx hlt
    rw [toScalarValues, if_pos hp] at hx
    rcases List.mem_cons.mp hx with hx | hx
    · have := surrogatePair_bounds hp.1 hp.2
      omega
    · obtain ⟨y, hy, hv⟩ := ih x hx hlt
      exact ⟨y, List.mem_cons_of_mem _ (List.mem_cons_of_mem _ hy), hv⟩
  | case4 c d rest hp ih =>
    intro x hx hlt
    rw [toScalarValues, if_neg hp] at hx
    rcases List.mem_cons.mp hx with hx | hx
    · rw [hx] at hlt ⊢
      simp only [scalarOfUnit] at hlt ⊢
      split_ifs at hlt ⊢
      · omega
      · exact ⟨c, List.mem_cons_self _ _, rfl⟩
    · obtain ⟨y, hy, hv⟩ := ih x hx hlt
      exact ⟨y, List.mem_cons_of_mem _ hy, hv⟩

/-- An ASCII octet of the UTF-8 encoding of a string is one of its code
units. -/
theorem mem_of_mem_utf8EncodeString (s : JSString) (b : Nat)
    (hb : b ∈ utf8EncodeString s) (h : b < 0x80) : ∃ c ∈ s, c.val = b := by
  simp only [utf8EncodeString, List.mem_flatMap] at hb
  obtain ⟨cp, hcp, hbcp⟩ := hb
  have := eq_of_mem_utf8Encode hbcp h
  subst this
  exact mem_of_mem_toScalarValues s cp hcp h

theorem dropWhile_append_stop {α : Type} {p : α → Bool} (a : List α) (x : α) (rest : List α)
    (hx : p x = false) :
    (a ++ x :: rest).dropWhile p = a.dropWhile p ++ x :: rest := by
  induction a with
  | nil => simp [List.dropWhile, hx]
  | cons b a ih =>
    by_cases hb : p b = true
    · rw [List.cons_append, List.dropWhile_cons_of_pos hb, List.dropWhile_cons_of_pos hb, ih]
    · rw [List.cons_append, List.dropWhile_cons_of_neg hb, List.dropWhile_cons_of_neg hb,
        List.cons_append]

theorem reverse_dropWhile_reverse_append {α : Type} {p : α → Bool} (l tail : List α)
    (hne : tail ≠ []) (h : ∀ c ∈ tail, p c = false) :
    ((l ++ tail).reverse.dropWhile p).reverse = l ++ tail := by
  rw [List.reverse_append]
  cases ht : tail.reverse with
  | nil => exact absurd (List.reverse_eq_nil_iff.mp ht) hne
  | cons x t =>
    have hx : p x = false := h x (by
      have : x ∈ tail.reverse := by rw [ht]; exact List.mem_cons_self _ _
      exact List.mem_reverse.mp this)
    rw [List.cons_append, List.dropWhile_cons_of_neg (by simp [hx]), ← List.cons_append, ← ht,
      ← List.reverse_append, List.reverse_reverse]

/-- The code units of the URL that `setParameter` requests after the origin:
the fixed text of the endpoint, the key and the encoded value. -/
theorem forall_mem_endpoint (P : CodeUnit → Prop) (key enc : JSString)
    (hlit : ∀ c ∈ js "/post?param=&value=", P c) (hkey : ∀ c ∈ key, P c)
    (henc : ∀ c ∈ enc, P c) :
    ∀ c ∈ js "/post" ++ (0x3F : CodeUnit) :: (js "param" ++ (0x3D : CodeUnit) ::
      (key ++ (0x26 : CodeUnit) :: (js "value" ++ (0x3D : CodeUnit) :: enc))), P c := by
  have e : js "/post?param=&value=" = js "/post" ++ (0x3F : CodeUnit) ::
      (js "param" ++ (0x3D : CodeUnit) :: ((0x26 : CodeUnit) :: (js "value" ++ [(0x3D : CodeUnit)])))
      := by decide
  rw [e] at hlit
  intro c hc
  simp only [List.mem_append, List.mem_cons] at hc hlit
  rcases hc with hc | hc | hc | hc | hc | hc | hc | hc | hc
  · exact hlit c (Or.inl hc)
  · exact hlit c (Or.inr (Or.inl hc))
  · exact hlit c (Or.inr (Or.inr (Or.inl hc)))
  · exact hlit c (Or.inr (Or.inr (Or.inr (Or.inl hc))))
  · exact hkey c hc
  · exact hlit c (Or.inr (Or.inr (Or.inr (Or.inr (Or.inl hc)))))
  · exact hlit c (Or.inr (Or.inr (Or.inr (Or.inr (Or.inr (Or.inl hc))))))
  · exact hlit c (by rw [hc]; simp)
  · exact henc c hc

theorem all_of_literal {P : CodeUnit → Bool} {s : JSString} (h : s.all P = true) :
    ∀ c ∈ s, P c = true := fun c hc => List.all_eq_true.mp h c hc

/-- The query of a URL made of an origin without question mark or number
sign, a path, a question mark and a query without number sign, tab or newline
that does not end in a space or control character: the question mark and the
query, as written. -/
theorem urlQuery_of_parts (origin pre mid tail : JSString) (x : CodeUnit)
    (horigin : ∀ c ∈ origin, c.val ≠ 0x3F ∧ c.val ≠ 0x23)
    (hx : isC0OrSpace x = false)
    (hpre : ∀ c ∈ x :: pre, c.val ≠ 0x3F)
    (hclean : ∀ c ∈ x :: (pre ++ (0x3F : CodeUnit) :: (mid ++ tail)),
      c.val ≠ 0x23 ∧ isTabOrNewline c = false)
    (hne : tail ≠ []) (htail : ∀ c ∈ tail, isC0OrSpace c = false) :
    urlQuery (origin ++ x :: (pre ++ (0x3F : CodeUnit) :: (mid ++ tail)))
      = (0x3F : CodeUnit) :: (mid ++ tail) := by
  have hsub : ∀ c ∈ (origin.dropWhile isC0OrSpace).filter (fun c => !isTabOrNewline c),
      c ∈ origin := fun c hc =>
    (List.dropWhile_sublist _).subset (List.mem_filter.mp hc).1
  -- leading strip
  have stepA : (origin ++ x :: (pre ++ (0x3F : CodeUnit) :: (mid ++ tail))).dropWhile isC0OrSpace
      = origin.dropWhile isC0OrSpace ++ x :: (pre ++ (0x3F : CodeUnit) :: (mid ++ tail)) :=
    dropWhile_append_stop _ _ _ hx
  -- trailing strip
  have stepB : ((origin.dropWhile isC0OrSpace ++ x :: (pre ++ (0x3F : CodeUnit) ::
        (mid ++ tail))).reverse.dropWhile isC0OrSpace).reverse
      = origin.dropWhile isC0OrSpace ++ x :: (pre ++ (0x3F : CodeUnit) :: (mid ++ tail)) := by
    have e : origin.dropWhile isC0OrSpace ++ x :: (pre ++ (0x3F : CodeUnit) :: (mid ++ tail))
        = (origin.dropWhile isC0OrSpace ++ x :: (pre ++ (0x3F : CodeUnit) :: mid)) ++ tail := by
      simp only [List.append_assoc, List.cons_append]
    rw [e]
    exact reverse_dropWhile_reverse_append _ _ hne htail
  -- removal of tabs and newlines
  have stepC : (origin.dropWhile isC0OrSpace ++ x :: (pre ++ (0x3F : CodeUnit) ::
        (mid ++ tail))).filter (fun c => !isTabOrNewline c)
      = (origin.dropWhile isC0OrSpace).filter (fun c => !isTabOrNewline c)
          ++ x :: (pre ++ (0x3F : CodeUnit) :: (mid ++ tail)) := by
    rw [List.filter_append]
    congr 1
    rw [List.filter_eq_self]
    intro c hc
    simp [(hclean c hc).2]
  -- no fragment
  have stepD : (((origin.dropWhile isC0OrSpace).filter (fun c => !isTabOrNewline c)
        ++ x :: (pre ++ (0x3F : CodeUnit) :: (mid ++ tail))).takeWhile
          fun c => decide (c.val ≠ 0x23))
      = (origin.dropWhile isC0OrSpace).filter (fun c => !isTabOrNewline c)
          ++ x :: (pre ++ (0x3F : CodeUnit) :: (mid ++ tail)) := by
    rw [List.takeWhile_eq_self_iff]
    intro c hc
    rcases List.mem_append.mp hc with hc | hc
    · simpa using (horigin c (hsub c hc)).2
    · simpa using (hclean c hc).1
  -- the first question mark
  have stepE : (((origin.dropWhile isC0OrSpace).filter (fun c => !isTabOrNewline c)
        ++ x :: (pre ++ (0x3F : CodeUnit) :: (mid ++ tail))).dropWhile
          fun c => decide (c.val ≠ 0x3F))
      = (0x3F : CodeUnit) :: (mid ++ tail) := by
    have e : (origin.dropWhile isC0OrSpace).filter (fun c => !isTabOrNewline c)
          ++ x :: (pre ++ (0x3F : CodeUnit) :: (mid ++ tail))
        = ((origin.dropWhile isC0OrSpace).filter (fun c => !isTabOrNewline c) ++ x :: pre)
          ++ (0x3F : CodeUnit) :: (mid ++ tail) := by
      simp only [List.append_assoc, List.cons_append]
    rw [e]
    refine (takeWhile_append_stop _ _ _ ?_ (by decide)).2
    intro c hc
    rcases List.mem_append.mp hc with hc | hc
    · simpa using (horigin c (hsub c hc)).1
    · simpa using hpre c hc
  unfold urlQuery
  simp only []
  rw [stepA, stepB, stepC, stepD, stepE]

theorem all_mem_of_part (part : JSString) {whole : JSString}
    (h : part.all (fun c => decide (c ∈ whole)) = true) : ∀ c ∈ part, c ∈ whole :=
  fun c hc => by simpa using List.all_eq_true.mp h c hc

/-- The query of the URL `setParameter` requests parses to the pair of the key
and the pair of the value, when the origin has neither a question mark nor a
number sign and the key has no `&`, no `#`, no tab or newline and is left
unchanged by URL decoding. -/
theorem urlSearchParams_of_request (origin key s enc : JSString)
    (horigin : ∀ c ∈ origin, c.val ≠ 0x3F ∧ c.val ≠ 0x23)
    (hkey : ∀ c ∈ key, c.val ≠ 0x26 ∧ c.val ≠ 0x23 ∧ isTabOrNewline c = false)
    (hfix : formDecode (utf8EncodeString key) = key)
    (henc : encodeURIComponent s = some enc) :
    URLSearchParams (urlQuery (origin ++ (js "/post?param=" ++ key ++ js "&value=" ++ enc)))
      = [(js "param", key), (js "value", s)] := by
  have hu := encodeURIComponent_units s enc henc
  have he : ∀ c ∈ enc, isQueryDelimiter c = false ∧ c.val < 0x80 :=
    fun c hc => delimiter_free_of_isUnreserved (hu c hc)
  have he2 : ∀ c ∈ enc, isC0OrSpace c = false ∧ c.val ≠ 0x23 ∧ isTabOrNewline c = false := by
    intro c hc
    have h := hu c hc
    simp only [isUnreserved, isC0OrSpace, isTabOrNewline, List.mem_cons, List.mem_singleton,
      List.not_mem_nil, or_false, decide_eq_true_eq, decide_eq_false_iff_not] at h ⊢
    omega
  -- the query of the request
  have shape : origin ++ (js "/post?param=" ++ key ++ js "&value=" ++ enc)
      = origin ++ (0x2F : CodeUnit) :: (js "post" ++ (0x3F : CodeUnit) ::
          ((js "param=" ++ (key ++ js "&value")) ++ (0x3D : CodeUnit) :: enc)) := by
    simp only [List.append_assoc]
    rfl
  have hq := urlQuery_of_parts origin (js "post") (js "param=" ++ (key ++ js "&value"))
    ((0x3D : CodeUnit) :: enc) (0x2F : CodeUnit) horigin (by decide)
    (fun c hc => by
      have h := all_of_literal (P := fun c => decide (c.val ≠ 0x3F))
        (s := (0x2F : CodeUnit) :: js "post") (by decide) c hc
      simpa using h)
    (by
      intro c hc
      simp only [List.mem_append, List.mem_cons] at hc
      have lit : ∀ c ∈ js "/post?param=&value=", c.val ≠ 0x23 ∧ isTabOrNewline c = false :=
        fun c hc => by
          have h := all_of_literal (P := fun c => decide (c.val ≠ 0x23) && !isTabOrNewline c)
            (s := js "/post?param=&value=") (by decide) c hc
          simpa using h
      rcases hc with hc | hc | hc | (hc | hc | hc) | hc | hc
      · rw [hc]; decide
      · exact lit c (all_mem_of_part (js "post") (by decide) c hc)
      · rw [hc]; decide
      · exact lit c (all_mem_of_part (js "param=") (by decide) c hc)
      · exact ⟨(hkey c hc).2.1, (hkey c hc).2.2⟩
      · exact lit c (all_mem_of_part (js "&value") (by decide) c hc)
      · rw [hc]; decide
      · exact ⟨(he2 c hc).2.1, (he2 c hc).2.2⟩)
    (by simp)
    (by
      intro c hc
      rcases List.mem_cons.mp hc with hc | hc
      · rw [hc]; decide
      · exact (he2 c hc).1)
  rw [shape, hq]
  -- its UTF-8 encoding
  have e1 : (js "param=" ++ (key ++ js "&value")) ++ (0x3D : CodeUnit) :: enc
      = js "param=" ++ (key ++ ((0x26 : CodeUnit) :: (js "value=" ++ enc))) := by
    simp only [List.append_assoc]
    rfl
  have hascii : IsAscii ((0x26 : CodeUnit) :: (js "value=" ++ enc)) := by
    intro c hc
    rcases List.mem_cons.mp hc with hc | hc
    · rw [hc]; decide
    · rcases List.mem_append.mp hc with hc | hc
      · exact isAscii_of_all (s := js "value=") (by decide) c hc
      · exact (he c hc).2
  have e2 : (js "param=").map Fin.val
        ++ (utf8EncodeString key ++ ((0x26 : CodeUnit) :: (js "value=" ++ enc)).map Fin.val)
      = (js "param").map Fin.val ++ 0x3D :: (utf8EncodeString key ++ 0x26 ::
          ((js "value").map Fin.val ++ 0x3D :: enc.map Fin.val)) := by
    simp only [List.map_append, List.map_cons]
    rfl
  simp only [URLSearchParams]
  rw [if_pos (by decide), e1,
    utf8EncodeString_append_ascii _ _ (isAscii_of_all (s := js "param=") (by decide)),
    utf8EncodeString_append key _ (by
      intro d hd
      simp only [List.head?_cons, Option.some.injEq] at hd
      rw [← hd]; decide),
    utf8EncodeString_of_isAscii _ hascii, e2, parseUrlencoded_two]
  · rw [hfix, formDecode_encodeURIComponent s enc henc,
      show formDecode ((js "param").map Fin.val) = js "param" from by decide,
      show formDecode ((js "value").map Fin.val) = js "value" from by decide]
  · intro b hb
    obtain ⟨c, hc, rfl⟩ := List.mem_map.mp hb
    have h := all_of_literal (P := fun c => decide (c.val ≠ 0x26) && decide (c.val ≠ 0x3D))
      (s := js "param") (by decide) c hc
    simpa using h
  · intro b hb h26
    by_cases hlt : b < 0x80
    · obtain ⟨c, hc, hv⟩ := mem_of_mem_utf8EncodeString key b hb hlt
      exact (hkey c hc).1 (by rw [hv, h26])
    · omega
  · intro b hb
    obtain ⟨c, hc, rfl⟩ := List.mem_map.mp hb
    have h := all_of_literal (P := fun c => decide (c.val ≠ 0x26) && decide (c.val ≠ 0x3D))
      (s := js "value") (by decide) c hc
    simpa using h
  · intro b hb
    obtain ⟨c, hc, rfl⟩ := List.mem_map.mp hb
    exact (not_delimiter_val (he c hc).1).1

theorem percentDecode_of_no_percent (bs : List Nat) (h : ∀ b ∈ bs, b ≠ 0x25) :
    percentDecode bs = bs := by
  induction bs with
  | nil => rfl
  | cons b bs ih =>
    rw [percentDecode_cons_ne (h b (List.mem_cons_self _ _)),
      ih (fun x hx => h x (List.mem_cons_of_mem _ hx))]

theorem scalarOfUnit_valid (c : CodeUnit) :
    scalarOfUnit c < 0x110000 ∧ ¬ (0xD800 ≤ scalarOfUnit c ∧ scalarOfUnit c ≤ 0xDFFF) := by
  have hlt := c.isLt
  simp only [scalarOfUnit, isLeadSurrogate, isTrailSurrogate, decide_eq_true_eq]
  split_ifs with h <;> omega

/-- Every value of `toScalarValues` is a scalar value. -/
theorem toScalarValues_valid (s : JSString) :
    ∀ cp ∈ toScalarValues s, cp < 0x110000 ∧ ¬ (0xD800 ≤ cp ∧ cp ≤ 0xDFFF) := by
  induction s using toScalarValues.induct with
  | case1 => intro cp h; cases h
  | case2 c =>
    intro cp h
    simp only [toScalarValues, List.mem_singleton] at h
    rw [h]; exact scalarOfUnit_valid c
  | case3 c d rest hp ih =>
    intro cp h
    rw [toScalarValues, if_pos hp] at h
    rcases List.mem_cons.mp h with h | h
    · have := surrogatePair_bounds hp.1 hp.2
      omega
    · exact ih cp h
  | case4 c d rest hp ih =>
    intro cp h
    rw [toScalarValues, if_neg hp] at h
    rcases List.mem_cons.mp h with h | h
    · rw [h]; exact scalarOfUnit_valid c
    · exact ih cp h

/-- A well-formed string is the UTF-16 encoding of its scalar values. -/
theorem flatMap_toScalarValues (s : JSString) (h : isWellFormed s = true) :
    (toScalarValues s).flatMap utf16EncodeCodePoint = s := by
  induction s using isWellFormed.induct with
  | case1 => rfl
  | case2 c =>
    simp only [isWellFormed, Bool.not_eq_true', Bool.or_eq_false_iff] at h
    simp only [toScalarValues, scalarOfUnit, h.1, h.2, Bool.false_eq_true, or_self, if_false,
      List.flatMap_cons, List.flatMap_nil, List.append_nil, utf16EncodeCodePoint_unit]
  | case3 c d rest hl ih =>
    simp only [isWellFormed, hl, if_true, Bool.and_eq_true] at h
    rw [toScalarValues, if_pos ⟨hl, h.1⟩, List.flatMap_cons, ih h.2,
      utf16EncodeCodePoint_pair hl h.1]
    rfl
  | case4 c d rest hl ih =>
    simp only [Bool.not_eq_true] at hl
    simp only [isWellFormed, hl, Bool.false_eq_true, if_false, Bool.and_eq_true,
      Bool.not_eq_true'] at h
    rw [toScalarValues_cons hl, List.flatMap_cons, ih h.2]
    simp only [scalarOfUnit, hl, h.1, Bool.false_eq_true, or_self, if_false,
      utf16EncodeCodePoint_unit, List.cons_append, List.nil_append]

/-- URL decoding leaves every well-formed string without plus and percent
signs unchanged. -/
theorem formDecode_of_plain_key (key : JSString) (hw : isWellFormed key = true)
    (h : ∀ c ∈ key, c.val ≠ 0x2B ∧ c.val ≠ 0x25) :
    formDecode (utf8EncodeString key) = key := by
  have hplus : (utf8EncodeString key).map plusToSpace = utf8EncodeString key := by
    have : ∀ b ∈ utf8EncodeString key, plusToSpace b = b := by
      intro b hb
      rw [plusToSpace, if_neg]
      intro hb2
      obtain ⟨c, hc, hv⟩ := mem_of_mem_utf8EncodeString key b hb (by omega)
      exact (h c hc).1 (by rw [hv, hb2])
    calc (utf8EncodeString key).map plusToSpace
        = (utf8EncodeString key).map id := List.map_congr_left this
      _ = utf8EncodeString key := List.map_id _
  have hpct : ∀ b ∈ utf8EncodeString key, b ≠ 0x25 := by
    intro b hb hb2
    obtain ⟨c, hc, hv⟩ := mem_of_mem_utf8EncodeString key b hb (by omega)
    exact (h c hc).2 (by rw [hv, hb2])
  rw [formDecode, hplus, percentDecode_of_no_percent _ hpct, utf8EncodeString,
    utf8DecodeLossy_flatMap _ (toScalarValues_valid key), flatMap_toScalarValues key hw]
/-- C10 as stated fails. The key is inserted unencoded, so with the key `a&b`
the query of the endpoint parses to three pairs; at a string value with an
unpaired surrogate `encodeURIComponent` throws, so no endpoint is built; and
with a backend origin that has a query of its own, such as
`http://host:1780/?dev=1`, the query of the request does not parse to the pairs
of the key and the value. -/
theorem setParameter_endpoint_counterexample :
    (∃ endpoint, setParameterEndpoint (js "a&b") (.str (js "1")) = some endpoint ∧
      URLSearchParams (urlQuery endpoint)
        = [(js "param", js "a"), (js "b", js ""), (js "value", js "1")]) ∧
    setParameterEndpoint (js "hostname") (.str [0xD800]) = none ∧
    (∃ endpoint, setParameterEndpoint (js "hostname") (.str (js "abc")) = some endpoint ∧
      URLSearchParams (urlQuery (js "http://host:1780/?dev=1" ++ endpoint))
        = [(js "dev", js "1/post?param=hostname"), (js "value", js "abc")]) := by
  refine ⟨⟨js "/post?param=a&b&value=1", by decide, by decide⟩, by decide,
    ⟨js "/post?param=hostname&value=abc", by decide, by decide⟩⟩

/-- C10, amended: for every key and every Number or string without an unpaired
surrogate as the value, `setParameter` requests the backend origin followed by
`/post?param=<key>&value=<encoded>`; the encoded value contains none of `&`,
`=`, `#`, `?`, `+` and the space, and `decodeURIComponent` gives back the
string form of the value. When moreover the backend origin contains neither
`?` nor `#`, and the key contains no `&`, no `#`, no tab or newline and is left
unchanged by URL decoding (as is every key without `+`, `%` and unpaired
surrogate), the query of the requested URL parses (as `URLSearchParams` does)
to exactly the pairs `param = key` and `value = ` the string form of the
value. -/
theorem setParameter_value_embedded (BACKEND_URL : JSString) (fetch : Transport)
    (paramKey : JSString) (value : ParamValue)
    (hv : (∃ x, value = .num x) ∨ isWellFormed value.toJSString = true) :
    ∃ encoded, encodeURIComponent value.toJSString = some encoded ∧
      setParameterEndpoint paramKey value
        = some (js "/post?param=" ++ paramKey ++ js "&value=" ++ encoded) ∧
      (setParameter BACKEND_URL fetch paramKey value).requests
        = [⟨.POST, BACKEND_URL ++ (js "/post?param=" ++ paramKey ++ js "&value=" ++ encoded),
            [], none⟩] ∧
      (∀ c ∈ encoded, isQueryDelimiter c = false) ∧
      decodeURIComponent encoded = some value.toJSString ∧
      ((∀ c ∈ BACKEND_URL, c.val ≠ 0x3F ∧ c.val ≠ 0x23) →
        (∀ c ∈ paramKey, c.val ≠ 0x26 ∧ c.val ≠ 0x23 ∧ isTabOrNewline c = false) →
        formDecode (utf8EncodeString paramKey) = paramKey →
        URLSearchParams (urlQuery
            (BACKEND_URL ++ (js "/post?param=" ++ paramKey ++ js "&value=" ++ encoded)))
          = [(js "param", paramKey), (js "value", value.toJSString)]) ∧
      (isWellFormed paramKey = true → (∀ c ∈ paramKey, c.val ≠ 0x2B ∧ c.val ≠ 0x25) →
        formDecode (utf8EncodeString paramKey) = paramKey) := by
  have hw : isWellFormed value.toJSString = true := by
    rcases hv with ⟨x, rfl⟩ | h
    · exact isWellFormed_numberToString x
    · exact h
  obtain ⟨encoded, he⟩ := encodeURIComponent_of_isWellFormed hw
  have hep : setParameterEndpoint paramKey value
      = some (js "/post?param=" ++ paramKey ++ js "&value=" ++ encoded) := by
    rw [setParameterEndpoint, he]; rfl
  refine ⟨encoded, he, hep, (setParameter_of_endpoint hep).1, ?_,
    decodeURIComponent_encodeURIComponent _ _ he,
    fun horigin hkey hfix =>
      urlSearchParams_of_request BACKEND_URL paramKey _ encoded horigin hkey hfix he,
    formDecode_of_plain_key paramKey⟩
  intro c hc
  exact (delimiter_free_of_isUnreserved (encodeURIComponent_units _ _ he c hc)).1

/-- C10 amended, at the origin `http://host:1780`, the key `a=b/c:d` and a
value full of delimiters. -/
theorem setParameter_value_embedded_witness :
    ∃ encoded, encodeURIComponent (ParamValue.str (js "a b&c=d#e?f+g")).toJSString
        = some encoded ∧
      (setParameter (js "http://host:1780") (answering 200 []) (js "a=b/c:d")
          (.str (js "a b&c=d#e?f+g"))).requests
        = [⟨.POST, js "http://host:1780" ++
            (js "/post?param=" ++ js "a=b/c:d" ++ js "&value=" ++ encoded), [], none⟩] ∧
      decodeURIComponent encoded = some (js "a b&c=d#e?f+g") ∧
      URLSearchParams (urlQuery (js "http://host:1780" ++
          (js "/post?param=" ++ js "a=b/c:d" ++ js "&value=" ++ encoded)))
        = [(js "param", js "a=b/c:d"), (js "value", js "a b&c=d#e?f+g")] :=
  match setParameter_value_embedded (js "http://host:1780") (answering 200 []) (js "a=b/c:d")
      (.str (js "a b&c=d#e?f+g")) (Or.inr (by decide)) with
  | ⟨encoded, h1, _, h3, _, h5, h6, _⟩ =>
    ⟨encoded, h1, h3, h5,
      h6
        (fun c hc => by
          have h := all_of_literal
            (P := fun c => decide (c.val ≠ 0x3F) && decide (c.val ≠ 0x23))
            (s := js "http://host:1780") (by decide) c hc
          simpa using h)
        (fun c hc => by
          have h := all_of_literal
            (P := fun c => decide (c.val ≠ 0x26) && (decide (c.val ≠ 0x23)
              && !isTabOrNewline c))
            (s := js "a=b/c:d") (by decide) c hc
          simpa using h)
        (by decide)⟩

end Snapclient
